import Mathlib

/-!
# Grafos-para-enteros: the adjacency-list graph of `src/main.c`

A shallow embedding of the graph container of `src/main.c` and the properties
its specification states about it.

Modelling decisions.

* C `int` values (`Item`, indices, `size`, `len`) are `Int`.  No operation of the
  container does arithmetic on them apart from `++g->len` and `++i`, both bounded
  by `size`, so no wrap-around can occur.
* A failed `assert` is `none`; an operation that returns normally is `some _`.
* Pointers into the vertex array (`&g->vertices[i]`) are array positions: the
  callee's effect on the pointed-to vertex is written back at that position.
* Allocation (`malloc`, `calloc`, `List_New`) succeeds.
* Floating-point values are held exactly (`CFloat`); the only floating-point
  operation the container performs is the implicit conversion of a `double`
  argument to the `float` parameter of `insert`.
* `List.h` is not part of the sources.  Its list type and functions are
  modelled from the specification (sections 2, 4.4 and 6); each such definition
  says so.
-/

namespace Grafos

/-! ## Floating-point values -/

/-- Value of a C floating-point object under IEEE 754: a finite value
`m * 2 ^ e`, an infinity, or a NaN.  Finite values are kept in canonical form
(`m` odd, or `m = 0` and `e = 0`), so that two finite values are equal exactly
when their fields are.  The sign of zero is not represented (`-0.0 == 0.0` in C). -/
inductive CFloat where
  | finite (m : Int) (e : Int)
  | inf (negative : Bool)
  | nan
deriving DecidableEq, Repr

/-- The constant `0.0`. -/
def CFloat.zero : CFloat := CFloat.finite 0 0

/-- The C comparison `x == y` on floating-point values: a NaN is equal to
nothing, itself included. -/
def CFloat.ceq : CFloat → CFloat → Bool
  | CFloat.nan, _ => false
  | _, CFloat.nan => false
  | x, y => decide (x = y)

/-- Number of binary digits of `n` (`0` for `n = 0`); the first argument bounds
the number of halvings and is always given as `n` itself. -/
def bitLength : Nat → Nat → Nat
  | 0, _ => 0
  | fuel + 1, n => if n = 0 then 0 else bitLength fuel (n / 2) + 1

/-- Canonical form of the finite value `m * 2 ^ e`: factors of two are moved
from `m` into the exponent.  The first argument bounds the number of steps. -/
def normalize : Nat → Int → Int → CFloat
  | 0, m, e => CFloat.finite m e
  | fuel + 1, m, e =>
    if m = 0 then CFloat.finite 0 0
    else if m % 2 = 0 then normalize fuel (m / 2) (e + 1)
    else CFloat.finite m e

/-- The integer nearest to `a / 2 ^ s`, ties going to the even one (the default
IEEE 754 rounding mode). -/
def roundHalfEven (a : Nat) (s : Nat) : Nat :=
  let n := a / 2 ^ s
  let r := a % 2 ^ s
  let h := 2 ^ (s - 1)
  if r < h then n else if h < r then n + 1 else if n % 2 = 0 then n else n + 1

/-- Conversion of a `double` value to `float` (IEEE 754 binary32: 24 significant
bits, least exponent `-126` with gradual underflow, overflow to infinity),
rounding to nearest, ties to even.  This is the conversion C applies when a
`double` argument is passed for the `float weigth` parameter of `insert`. -/
def double_to_float : CFloat → CFloat
  | CFloat.finite m e =>
    if m = 0 then CFloat.finite 0 0
    else
      let a := m.natAbs
      -- |m * 2 ^ e| lies in [2 ^ top, 2 ^ (top + 1))
      let top : Int := e + bitLength a a - 1
      -- the spacing of `float` values around it is 2 ^ q
      let q : Int := max top (-126) - 23
      if q ≤ e then
        if 128 ≤ top then CFloat.inf (decide (m < 0)) else normalize (a + 1) m e
      else
        let n := roundHalfEven a (q - e).toNat
        if 128 ≤ q + bitLength n n - 1 then CFloat.inf (decide (m < 0))
        else normalize (n + 1) (if m < 0 then -(n : Int) else n) q
  | x => x

/-! ## The neighbor list (`List.h`) -/

/-- Modelled from the spec: the record type `Data` of `List.h`, which is not
among the sources.  The spec (sections 2 and 6) describes a neighbor list as an
ordered sequence of (neighbor-index, weight) pairs; `main.c` reads the fields
`index` and `weight` of a `Data`. -/
structure Data where
  index : Int
  weight : CFloat
deriving DecidableEq, Repr

/-- Modelled from the spec: the type `List` of `List.h`, which is not among the
sources: the ordered sequence of records and the single forward cursor of
section 4.4.  `cursor = none` is the cursor past the end; `cursor = some i`
points at the record at position `i`. -/
structure NeighborList where
  items : List Data
  cursor : Option Nat
deriving DecidableEq, Repr

/-- Modelled from the spec: `List_New` of `List.h` (`Create() → List`), the
empty list. -/
def List_New : NeighborList := { items := [], cursor := none }

/-- Modelled from the spec: `List_Push_back` of `List.h` (`PushBack(list, index,
weight)`: appends unconditionally). -/
def List_Push_back (l : NeighborList) (index : Int) (weight : CFloat) : NeighborList :=
  { l with items := l.items ++ [{ index := index, weight := weight }] }

/-- Modelled from the spec: `List_Find` of `List.h` (`Contains(list, index) →
bool`), the membership test by neighbor index. -/
def List_Find (l : NeighborList) (index : Int) : Bool :=
  l.items.any (fun d => decide (d.index = index))

/-- Modelled from the spec: `List_Cursor_front` of `List.h` (`Start(list)`): the
cursor goes to the first record.  The argument is the pointer `v->neighbors`,
which is `NULL` (`none`) for a vertex whose list was never created; the spec's
data model reads an absent list as an empty one, so nothing happens then. -/
def List_Cursor_front : Option NeighborList → Option NeighborList
  | none => none
  | some l => some { l with cursor := if l.items = [] then none else some 0 }

/-- Modelled from the spec: `List_Cursor_next` of `List.h` (`Advance(list)`): the
cursor moves one record forward, past the end after the last record. -/
def List_Cursor_next : Option NeighborList → Option NeighborList
  | none => none
  | some l =>
    some { l with cursor :=
      match l.cursor with
      | none => none
      | some i => if i + 1 < l.items.length then some (i + 1) else none }

/-- Modelled from the spec: `List_Cursor_end` of `List.h` (`AtEnd(list) → bool`).
An absent list is read as an empty one. -/
def List_Cursor_end : Option NeighborList → Bool
  | none => true
  | some l =>
    match l.cursor with
    | none => true
    | some i => decide (l.items.length ≤ i)

/-- Modelled from the spec: `List_Cursor_get` of `List.h` (`Current(list) →
(index, weight)`); it has a result only when the cursor points at a record. -/
def List_Cursor_get : Option NeighborList → Option Data
  | none => none
  | some l =>
    match l.cursor with
    | none => none
    | some i => l.items.get? i

/-! ## Vertices -/

/-- The colours of `eGraphColors`. -/
inductive eGraphColors where
  | BLACK
  | GRAY
  | WHITE
deriving DecidableEq, Repr

/-- The struct `Vertex`.  `neighbors = none` is the `NULL` pointer. -/
structure Vertex where
  data : Int
  neighbors : Option NeighborList
  color : eGraphColors
  distance : Int
  predecessor : Int
deriving DecidableEq, Repr

/-- A vertex slot as `calloc` leaves it: every field zero (`BLACK` is the
enumerator `0`). -/
def Vertex_zero : Vertex :=
  { data := 0, neighbors := none, color := eGraphColors.BLACK, distance := 0, predecessor := 0 }

/-- The function `Vertex_Start`. -/
def Vertex_Start (v : Vertex) : Vertex :=
  { v with neighbors := List_Cursor_front v.neighbors }

/-- The function `Vertex_Next`. -/
def Vertex_Next (v : Vertex) : Vertex :=
  { v with neighbors := List_Cursor_next v.neighbors }

/-- The function `Vertex_End`. -/
def Vertex_End (v : Vertex) : Bool :=
  List_Cursor_end v.neighbors

/-- The function `Vertex_GetNeighborIndex`. -/
def Vertex_GetNeighborIndex (v : Vertex) : Option Data :=
  List_Cursor_get v.neighbors

/-- The function `Vertex_SetColor`. -/
def Vertex_SetColor (v : Vertex) (color : eGraphColors) : Vertex :=
  { v with color := color }

/-- The function `Vertex_GetColor`. -/
def Vertex_GetColor (v : Vertex) : eGraphColors := v.color

/-- The function `Vertex_SetDistance`. -/
def Vertex_SetDistance (v : Vertex) (distance : Int) : Vertex :=
  { v with distance := distance }

/-- The function `Vertex_GetDistance`. -/
def Vertex_GetDistance (v : Vertex) : Int := v.distance

/-- The function `Vertex_SetPredecessor`. -/
def Vertex_SetPredecessor (v : Vertex) (predecessor_idx : Int) : Vertex :=
  { v with predecessor := predecessor_idx }

/-- The function `Vertex_GetPredecessor`. -/
def Vertex_GetPredecessor (v : Vertex) : Int := v.predecessor

/-! ## Graphs -/

/-- The kinds of `eGraphType`. -/
inductive eGraphType where
  | eGraphType_UNDIRECTED
  | eGraphType_DIRECTED
deriving DecidableEq, Repr

/-- The struct `Graph`; `vertices` is the array of `size` slots. -/
structure Graph where
  vertices : List Vertex
  size : Int
  len : Int
  type : eGraphType
deriving DecidableEq, Repr

/-- The slot `g->vertices[i]`. -/
def Graph.vertexAt (g : Graph) (i : Int) : Vertex :=
  g.vertices.getD i.toNat Vertex_zero

/-- The graph after the slot `g->vertices[i]` was written with `v`. -/
def Graph.setVertex (g : Graph) (i : Int) (v : Vertex) : Graph :=
  { g with vertices := g.vertices.set i.toNat v }

/-- The loop of `find`: the first argument is the number of iterations left
(`size - i`), the second is `i`. -/
def find.loop (vertices : List Vertex) (key : Int) : Nat → Nat → Int
  | 0, _ => -1
  | n + 1, i =>
    if (vertices.getD i Vertex_zero).data = key then (i : Int)
    else find.loop vertices key n (i + 1)

/-- The private function `find`: the index of the first of the `size` slots whose
data equals `key`, or `-1`. -/
def find (vertices : List Vertex) (size : Int) (key : Int) : Int :=
  find.loop vertices key size.toNat 0

/-- The private function `find_neighbor`. -/
def find_neighbor (v : Vertex) (index : Int) : Bool :=
  match v.neighbors with
  | some l => List_Find l index
  | none => false

/-- The private function `insert`.  Its parameter `weigth` has type `float`. -/
def insert (vertex : Vertex) (index : Int) (weigth : CFloat) : Vertex :=
  let vertex :=
    if vertex.neighbors.isNone then { vertex with neighbors := some List_New } else vertex
  match vertex.neighbors with
  | some l =>
    if !find_neighbor vertex index then
      { vertex with neighbors := some (List_Push_back l index weigth) }
    else vertex
  | none => vertex

/-- The function `Graph_New`. -/
def Graph_New (size : Int) (type : eGraphType) : Option Graph :=
  if 0 < size then
    some { vertices := List.replicate size.toNat Vertex_zero, size := size, len := 0, type := type }
  else none

/-- The function `Graph_AddVertex`. -/
def Graph_AddVertex (g : Graph) (data : Int) : Option Graph :=
  if g.len < g.size then
    let vertex := { g.vertexAt g.len with data := data, neighbors := none }
    some { g.setVertex g.len vertex with len := g.len + 1 }
  else none

/-- The function `Graph_GetSize`. -/
def Graph_GetSize (g : Graph) : Int := g.size

/-- The function `Graph_GetLen`. -/
def Graph_GetLen (g : Graph) : Int := g.len

/-- The function `Graph_AddEdge`.  The constant `0.0` is a `double`, converted to the `float`
parameter of `insert`. -/
def Graph_AddEdge (g : Graph) (start finish : Int) : Option (Bool × Graph) :=
  if 0 < g.len then
    let start_idx := find g.vertices g.size start
    let finish_idx := find g.vertices g.size finish
    if start_idx = -1 ∨ finish_idx = -1 then some (false, g)
    else
      let g := g.setVertex start_idx
        (insert (g.vertexAt start_idx) finish_idx (double_to_float CFloat.zero))
      let g :=
        if g.type = eGraphType.eGraphType_UNDIRECTED then
          g.setVertex finish_idx
            (insert (g.vertexAt finish_idx) start_idx (double_to_float CFloat.zero))
        else g
      some (true, g)
  else none

/-- The function `Graph_GetDataByIndex`. -/
def Graph_GetDataByIndex (g : Graph) (vertex_idx : Int) : Option Int :=
  if 0 ≤ vertex_idx ∧ vertex_idx < g.len then some (g.vertexAt vertex_idx).data else none

/-- The function `Graph_GetVertexByIndex`; the reference returned is given as the vertex it
points at. -/
def Graph_GetVertexByIndex (g : Graph) (vertex_idx : Int) : Option Vertex :=
  if 0 ≤ vertex_idx ∧ vertex_idx < g.len then some (g.vertexAt vertex_idx) else none

/-- The function `Graph_AddWeightedEdge`.  The `double weight` is converted to the `float`
parameter of `insert`. -/
def Graph_AddWeightedEdge (g : Graph) (start finish : Int) (weight : CFloat) :
    Option (Bool × Graph) :=
  if 0 < g.len then
    let start_idx := find g.vertices g.size start
    let finish_idx := find g.vertices g.size finish
    if start_idx = -1 ∨ finish_idx = -1 then some (false, g)
    else
      match g.type with
      | eGraphType.eGraphType_DIRECTED =>
        some (true, g.setVertex start_idx
          (insert (g.vertexAt start_idx) finish_idx (double_to_float weight)))
      | eGraphType.eGraphType_UNDIRECTED =>
        let g := g.setVertex start_idx
          (insert (g.vertexAt start_idx) finish_idx (double_to_float weight))
        let g := g.setVertex finish_idx
          (insert (g.vertexAt finish_idx) start_idx (double_to_float weight))
        some (true, g)
  else none

/-- The `while` loop of `Graph_GetWeight` over the neighbor list of `v`.  The
first argument bounds the number of iterations; `none` is returned when the
bound is reached or the cursor is read where it points at no record.  The
result is the weight returned from inside the loop, if any, and the vertex with
its cursor where the loop left it. -/
def Graph_GetWeight.scan (finish_idx : Int) : Nat → Vertex → Option (Option CFloat × Vertex)
  | 0, _ => none
  | fuel + 1, v =>
    if !Vertex_End v then
      match Vertex_GetNeighborIndex v with
      | none => none
      | some d =>
        if d.index = finish_idx then some (some d.weight, v)
        else Graph_GetWeight.scan finish_idx fuel (Vertex_Next v)
    else some (none, v)

/-- The `for` loop of `Graph_GetWeight` over the live vertices: the first
argument is the number of iterations left (`len - i`), the second is `i`. -/
def Graph_GetWeight.loop (start_idx finish_idx : Int) : Nat → Nat → Graph → Option (CFloat × Graph)
  | 0, _, g => some (CFloat.zero, g)
  | n + 1, i, g =>
    if start_idx = (i : Int) then
      match Graph_GetVertexByIndex g i with
      | none => none
      | some v =>
        let v := Vertex_Start v
        let nodes := match v.neighbors with
          | none => 0
          | some l => l.items.length
        match Graph_GetWeight.scan finish_idx (nodes + 1) v with
        | none => none
        | some (some w, v) => some (w, g.setVertex i v)
        | some (none, v) => Graph_GetWeight.loop start_idx finish_idx n (i + 1) (g.setVertex i v)
    else Graph_GetWeight.loop start_idx finish_idx n (i + 1) g

/-- The function `Graph_GetWeight`: the weight returned, and the graph with the list cursors
where the traversal left them. -/
def Graph_GetWeight (g : Graph) (start finish : Int) : Option (CFloat × Graph) :=
  if 0 < g.len then
    let start_idx := find g.vertices g.size start
    let finish_idx := find g.vertices g.size finish
    if start_idx = -1 ∨ finish_idx = -1 then some (CFloat.zero, g)
    else Graph_GetWeight.loop start_idx finish_idx g.len.toNat 0 g
  else none

/-- What `Graph_Print` writes for one neighbor record: the weight and the data of
the neighbor (`" (weight=%0.2f) %d -> "`). -/
structure PrintedNeighbor where
  weight : CFloat
  data : Int
deriving DecidableEq, Repr

/-- What `Graph_Print` writes for one vertex: its index, its data and its
neighbor records (`"[%d]%d=>"`, the records, `"Nil"`). -/
structure PrintedVertex where
  index : Int
  data : Int
  neighbors : List PrintedNeighbor
deriving DecidableEq, Repr

/-- The inner `for` loop of `Graph_Print` over the neighbor list of `v`.  The first
argument bounds the number of iterations.  `none` is returned when the bound is
reached, when the cursor is read where it points at no record, or when the
lookup `g->vertices[neighbor_idx]` falls outside the vertex array.  The result
is what was written, and the vertex with its cursor where the loop left it. -/
def Graph_Print.neighbors (g : Graph) : Nat → Vertex → Option (List PrintedNeighbor × Vertex)
  | 0, _ => none
  | fuel + 1, v =>
    if !Vertex_End v then
      match List_Cursor_get v.neighbors with
      | none => none
      | some d =>
        let neighbor_idx := d.index
        let weight := d.weight
        if 0 ≤ neighbor_idx ∧ neighbor_idx.toNat < g.vertices.length then
          match Graph_Print.neighbors g fuel (Vertex_Next v) with
          | none => none
          | some (rest, v1) =>
            some ({ weight := weight, data := (g.vertexAt neighbor_idx).data } :: rest, v1)
        else none
    else some ([], v)

/-- The outer `for` loop of `Graph_Print` over the live vertices: the first
argument is the number of iterations left (`len - i`), the second is `i`. -/
def Graph_Print.loop : Nat → Nat → Graph → Option (List PrintedVertex × Graph)
  | 0, _, g => some ([], g)
  | n + 1, i, g =>
    let vertex := g.vertexAt i
    let line :=
      match vertex.neighbors with
      | some l => Graph_Print.neighbors g (l.items.length + 1) (Vertex_Start vertex)
      | none => some ([], vertex)
    match line with
    | none => none
    | some (written, v1) =>
      match Graph_Print.loop n (i + 1) (g.setVertex i v1) with
      | none => none
      | some (rest, g1) =>
        some ({ index := i, data := vertex.data, neighbors := written } :: rest, g1)

/-- The function `Graph_Print`: what is written, vertex by vertex, and the graph
with the list cursors where the traversal left them; `none` when a lookup falls
outside the vertex array.  The parameter `depth` is not used. -/
def Graph_Print (g : Graph) (_depth : Int) : Option (List PrintedVertex × Graph) :=
  Graph_Print.loop g.len.toNat 0 g

/-- The count `MAX_VERTICES`. -/
def MAX_VERTICES : Int := 5

/-- The loop of `main` that initialises the traversal fields of the live
vertices: the first argument is the number of iterations left, the second is
`i`. -/
def main.init : Nat → Nat → Graph → Option Graph
  | 0, _, g => some g
  | n + 1, i, g =>
    match Graph_GetVertexByIndex g i with
    | none => none
    | some v =>
      let v := Vertex_SetColor v eGraphColors.BLACK
      let v := Vertex_SetDistance v (-1)
      let v := Vertex_SetPredecessor v (-1)
      main.init n (i + 1) (g.setVertex i v)

/-- What `main` has computed when it reaches its console loop. -/
structure MainRun where
  added : List Bool
  printed : List PrintedVertex
  peso : CFloat
  grafo : Graph
deriving DecidableEq, Repr

/-- The first part of `main`: the graph is created, the five vertices are added
and their traversal fields are initialised. -/
def main.vertices : Option Graph := do
  let grafo ← Graph_New MAX_VERTICES eGraphType.eGraphType_UNDIRECTED
  let grafo ← Graph_AddVertex grafo 100
  let grafo ← Graph_AddVertex grafo 200
  let grafo ← Graph_AddVertex grafo 300
  let grafo ← Graph_AddVertex grafo 400
  let grafo ← Graph_AddVertex grafo 500
  main.init (Graph_GetLen grafo).toNat 0 grafo

/-- The second part of `main`: the six calls of `Graph_AddWeightedEdge`, with what
each returned, in order.  The weights `0.5`, `1.5`, ..., `5.5` are
`1 * 2 ^ (-1)`, `3 * 2 ^ (-1)`, ..., `11 * 2 ^ (-1)`. -/
def main.edges (grafo : Graph) : Option (List Bool × Graph) := do
  let (r1, grafo) ← Graph_AddWeightedEdge grafo 100 200 (CFloat.finite 1 (-1))
  let (r2, grafo) ← Graph_AddWeightedEdge grafo 100 400 (CFloat.finite 3 (-1))
  let (r3, grafo) ← Graph_AddWeightedEdge grafo 200 300 (CFloat.finite 5 (-1))
  let (r4, grafo) ← Graph_AddWeightedEdge grafo 200 500 (CFloat.finite 7 (-1))
  let (r5, grafo) ← Graph_AddWeightedEdge grafo 300 500 (CFloat.finite 9 (-1))
  let (r6, grafo) ← Graph_AddWeightedEdge grafo 400 500 (CFloat.finite 11 (-1))
  pure ([r1, r2, r3, r4, r5, r6], grafo)

/-- The function `main` up to its console loop: the graph is built and printed and
the weight between 400 and 500 is read. -/
def main : Option MainRun := do
  let grafo ← main.vertices
  let (added, grafo) ← main.edges grafo
  let (printed, grafo) ← Graph_Print grafo 0
  let (peso, grafo) ← Graph_GetWeight grafo 400 500
  pure { added := added, printed := printed, peso := peso, grafo := grafo }

/-! ## Sequences of calls, reachable states, the representation invariant -/

/-- The records of the neighbor list of a vertex, in list order; none when the
list was never created. -/
def Vertex.items (v : Vertex) : List Data :=
  match v.neighbors with
  | none => []
  | some l => l.items

/-- The neighbor indices recorded in the neighbor list of a vertex. -/
def Vertex.indices (v : Vertex) : List Int :=
  v.items.map Data.index

/-- The weight of the first record of a vertex for the neighbor index `idx`. -/
def Vertex.weightOf (v : Vertex) (idx : Int) : Option CFloat :=
  (v.items.find? (fun d => decide (d.index = idx))).map Data.weight

/-- A call of one of the three mutators of the container. -/
inductive Op where
  | addVertex (data : Int)
  | addEdge (start finish : Int)
  | addWeightedEdge (start finish : Int) (weight : CFloat)
deriving DecidableEq, Repr

/-- The graph after one call; `none` when the call fails an assertion. -/
def Op.apply (g : Graph) : Op → Option Graph
  | Op.addVertex data => Graph_AddVertex g data
  | Op.addEdge start finish => (Graph_AddEdge g start finish).map Prod.snd
  | Op.addWeightedEdge start finish weight =>
    (Graph_AddWeightedEdge g start finish weight).map Prod.snd

/-- The graph after a sequence of calls, each made on the result of the one
before; `none` as soon as a call fails an assertion. -/
def run (g : Graph) : List Op → Option Graph
  | [] => some g
  | op :: ops => (op.apply g).bind (fun g1 => run g1 ops)

/-- The values handed to `Graph_AddVertex` in a sequence of calls, in order. -/
def addedValues : List Op → List Int
  | [] => []
  | Op.addVertex data :: ops => data :: addedValues ops
  | _ :: ops => addedValues ops

/-- The states a graph can be in: what `Graph_New` returns, and what the three
mutators make of such a state. -/
inductive Reachable : Graph → Prop where
  | new (size : Int) (type : eGraphType) (g : Graph) :
      Graph_New size type = some g → Reachable g
  | step (g g1 : Graph) (op : Op) : Reachable g → op.apply g = some g1 → Reachable g1

/-- The shape of the vertex array: `size` slots, of which the first `len` are in
use. -/
def Graph.Shaped (g : Graph) : Prop :=
  0 < g.size ∧ 0 ≤ g.len ∧ g.len ≤ g.size ∧ g.vertices.length = g.size.toNat

/-- No neighbor list of the graph holds two records with the same index. -/
def Graph.NoDuplicates (g : Graph) : Prop :=
  ∀ v ∈ g.vertices, v.indices.Nodup

/-- The representation invariant of the container. -/
def Graph.Valid (g : Graph) : Prop :=
  g.Shaped ∧ g.NoDuplicates

instance (g : Graph) : Decidable g.Shaped := by
  unfold Graph.Shaped; infer_instance

instance (g : Graph) : Decidable g.NoDuplicates := by
  unfold Graph.NoDuplicates; infer_instance

instance (g : Graph) : Decidable g.Valid := by
  unfold Graph.Valid; infer_instance

/-- The value `v` is the data of a vertex that was inserted (a live slot). -/
def Graph.Inserted (g : Graph) (v : Int) : Prop :=
  ∃ i : Nat, (i : Int) < g.len ∧ (g.vertexAt i).data = v

/-! ## Results of the mutators, call sequences and sample states -/

/-- The graph `Graph_AddEdge` and `Graph_AddWeightedEdge` leave behind when both
values were found, at the indices `i` and `j`, and `w` is the weight handed to
`insert`. -/
def edgeResult (g : Graph) (i j : Int) (w : CFloat) (both : Bool) : Graph :=
  let g1 := g.setVertex i (insert (g.vertexAt i) j w)
  if both then g1.setVertex j (insert (g1.vertexAt j) i w) else g1

/-- The values `vs` are the data of the live vertices of `g`, in index order. -/
def Graph.HoldsValues (g : Graph) (vs : List Int) : Prop :=
  g.len = (vs.length : Int) ∧ ∀ i : Nat, i < vs.length → vs[i]? = some (g.vertexAt i).data

/-- No edge call comes before the first `Graph_AddVertex`: the sequence is empty
or starts with a `Graph_AddVertex` (the edge operations assert `len > 0`). -/
def startsWithVertex : List Op → Prop
  | [] => True
  | Op.addVertex _ :: _ => True
  | _ :: _ => False

instance (ops : List Op) : Decidable (startsWithVertex ops) := by
  unfold startsWithVertex; split <;> infer_instance

/-- The graph `Graph_AddVertex` leaves behind when there is a free slot. -/
def vertexResult (g : Graph) (d : Int) : Graph :=
  { vertices := g.vertices.set g.len.toNat { g.vertexAt g.len with data := d, neighbors := none },
    size := g.size, len := g.len + 1, type := g.type }

/-- The state after `Graph_New(2, type)`, `Graph_AddVertex(g, 100)` and
`Graph_AddVertex(g, 200)`. -/
def twoVertices (type : eGraphType) : Graph :=
  { vertices := [{ Vertex_zero with data := 100 }, { Vertex_zero with data := 200 }],
    size := 2, len := 2, type := type }

/-- The state after `Graph_New(2, type)` and `Graph_AddVertex(g, 100)`: one live
vertex, one unused slot. -/
def oneOfTwo (type : eGraphType) : Graph :=
  { vertices := [{ Vertex_zero with data := 100 }, Vertex_zero], size := 2, len := 1,
    type := type }

/-- The state after `Graph_New(2, UNDIRECTED)`, `Graph_AddVertex(g, 100)`,
`Graph_AddVertex(g, 200)` and `Graph_AddEdge(g, 100, 200)`: the two vertices
joined by an edge of weight `0.0`. -/
def zeroEdge : Graph :=
  { vertices :=
      [{ Vertex_zero with
          data := 100
          neighbors := some { items := [{ index := 1, weight := CFloat.zero }], cursor := none } },
       { Vertex_zero with
          data := 200
          neighbors := some { items := [{ index := 0, weight := CFloat.zero }], cursor := none } }],
    size := 2, len := 2, type := eGraphType.eGraphType_UNDIRECTED }

/-- The `double` nearest to `0.1`, `0x3FB999999999999A`, which is
`3602879701896397 * 2 ^ (-55)`. -/
def oneTenth : CFloat := CFloat.finite 3602879701896397 (-55)

/-- Every neighbor index recorded in a list of the graph is the index of a slot
of the vertex array. -/
def Graph.IndicesInRange (g : Graph) : Prop :=
  ∀ v ∈ g.vertices, ∀ idx ∈ v.indices, 0 ≤ idx ∧ idx < g.size

/-- The state after `Graph_New(2, UNDIRECTED)`, `Graph_AddVertex(g, 100)`,
`Graph_AddEdge(g, 100, 0)` and `Graph_AddVertex(g, 200)`: the record the edge
call wrote into the unused slot 1 is gone, the one in the list of vertex 0 is
still there. -/
def lostRecord : Graph :=
  { vertices :=
      [{ Vertex_zero with
          data := 100
          neighbors := some { items := [{ index := 1, weight := CFloat.zero }], cursor := none } },
       { Vertex_zero with data := 200 }],
    size := 2, len := 2, type := eGraphType.eGraphType_UNDIRECTED }

/-- The state after `Graph_New(2, type)`, `Graph_AddVertex(g, 100)`,
`Graph_AddVertex(g, 200)`, the initialisation of the traversal fields as in
`main`, `Graph_AddWeightedEdge(g, 100, 100, 0.5)` and `Graph_GetWeight(g, 100,
100)`: the traversal fields are set, vertex 0 has a self-loop and the cursor of
its list was moved by the query; vertex 1 has no list. -/
def queried (type : eGraphType) : Graph :=
  { vertices :=
      [{ data := 100
         neighbors :=
           some { items := [{ index := 0, weight := CFloat.finite 1 (-1) }], cursor := some 0 }
         color := eGraphColors.BLACK, distance := -1, predecessor := -1 },
       { data := 200, neighbors := none, color := eGraphColors.BLACK, distance := -1,
         predecessor := -1 }],
    size := 2, len := 2, type := type }

/-! ## Lemmas on the vertex array -/

@[simp] theorem setVertex_size (g : Graph) (i : Int) (v : Vertex) :
    (g.setVertex i v).size = g.size := rfl

@[simp] theorem setVertex_len (g : Graph) (i : Int) (v : Vertex) :
    (g.setVertex i v).len = g.len := rfl

@[simp] theorem setVertex_type (g : Graph) (i : Int) (v : Vertex) :
    (g.setVertex i v).type = g.type := rfl

@[simp] theorem setVertex_length (g : Graph) (i : Int) (v : Vertex) :
    (g.setVertex i v).vertices.length = g.vertices.length := by
  simp [Graph.setVertex]

theorem vertexAt_setVertex_same (g : Graph) (i : Int) (v : Vertex)
    (h : i.toNat < g.vertices.length) : (g.setVertex i v).vertexAt i = v := by
  simp [Graph.setVertex, Graph.vertexAt, List.getD_eq_getElem?_getD, List.getElem?_set, h]

theorem vertexAt_setVertex_ne (g : Graph) (i j : Int) (v : Vertex)
    (h : i.toNat ≠ j.toNat) : (g.setVertex i v).vertexAt j = g.vertexAt j := by
  simp [Graph.setVertex, Graph.vertexAt, List.getD_eq_getElem?_getD, List.getElem?_set, h]

theorem vertexAt_mem (g : Graph) (i : Int) (h : i.toNat < g.vertices.length) :
    g.vertexAt i ∈ g.vertices := by
  unfold Graph.vertexAt
  rw [List.getD_eq_getElem _ _ h]
  exact List.getElem_mem h

theorem setVertex_setVertex (g : Graph) (i : Int) (v w : Vertex) :
    (g.setVertex i v).setVertex i w = g.setVertex i w := by
  simp [Graph.setVertex, List.set_set]

theorem setVertex_vertexAt (g : Graph) (i : Int) : g.setVertex i (g.vertexAt i) = g := by
  cases g with
  | mk vs size len type =>
    simp only [Graph.setVertex, Graph.vertexAt, Graph.mk.injEq, and_true]
    by_cases h : i.toNat < vs.length
    · rw [List.getD_eq_getElem _ _ h]
      apply List.ext_getElem (by simp)
      intro n h1 h2
      rw [List.getElem_set]
      split
      · next h3 => subst h3; rfl
      · rfl
    · exact List.set_eq_of_length_le (by omega)

/-! ## Lemmas on `find` -/

theorem find_loop_cases (vs : List Vertex) (key : Int) :
    ∀ n i : Nat, find.loop vs key n i = -1 ∨
      ∃ k : Nat, find.loop vs key n i = (k : Int) ∧ i ≤ k ∧ k < i + n ∧
        (vs.getD k Vertex_zero).data = key ∧
        ∀ j : Nat, i ≤ j → j < k → (vs.getD j Vertex_zero).data ≠ key := by
  intro n
  induction n with
  | zero => intro i; left; rfl
  | succ n ih =>
    intro i
    by_cases h : (vs.getD i Vertex_zero).data = key
    · right
      refine ⟨i, ?_, le_refl _, by omega, h, ?_⟩
      · simp only [find.loop, h, if_true]
      · intro j h1 h2; omega
    · rcases ih (i + 1) with h1 | ⟨k, h1, h2, h3, h4, h5⟩
      · left; simp only [find.loop, h, if_false, h1]
      · right
        refine ⟨k, ?_, by omega, by omega, h4, ?_⟩
        · simp only [find.loop, h, if_false, h1]
        · intro j hj1 hj2
          by_cases hji : j = i
          · subst hji; exact h
          · exact h5 j (by omega) hj2

theorem find_loop_eq_neg_one (vs : List Vertex) (key : Int) :
    ∀ n i : Nat, find.loop vs key n i = -1 ↔
      ∀ j : Nat, i ≤ j → j < i + n → (vs.getD j Vertex_zero).data ≠ key := by
  intro n
  induction n with
  | zero => intro i; simp [find.loop]; intro j h1 h2; omega
  | succ n ih =>
    intro i
    by_cases h : (vs.getD i Vertex_zero).data = key
    · simp only [find.loop, h, if_true]
      constructor
      · intro h1; omega
      · intro h1; exact absurd h (h1 i (le_refl _) (by omega))
    · simp only [find.loop, h, if_false]
      rw [ih (i + 1)]
      constructor
      · intro h1 j hj1 hj2
        by_cases hji : j = i
        · subst hji; exact h
        · exact h1 j (by omega) (by omega)
      · intro h1 j hj1 hj2
        exact h1 j (by omega) (by omega)

/-- The result of `find` is `-1` or the position of a slot below `size` that
holds the key, no earlier slot holding it. -/
theorem find_cases (vs : List Vertex) (size key : Int) :
    find vs size key = -1 ∨
      ∃ k : Nat, find vs size key = (k : Int) ∧ (k : Int) < size ∧
        (vs.getD k Vertex_zero).data = key ∧
        ∀ j : Nat, j < k → (vs.getD j Vertex_zero).data ≠ key := by
  unfold find
  rcases find_loop_cases vs key size.toNat 0 with h | ⟨k, h1, _, h3, h4, h5⟩
  · left; exact h
  · right
    exact ⟨k, h1, by omega, h4, fun j hj => h5 j (Nat.zero_le _) hj⟩

theorem find_eq_neg_one (vs : List Vertex) (size key : Int) :
    find vs size key = -1 ↔
      ∀ j : Nat, (j : Int) < size → (vs.getD j Vertex_zero).data ≠ key := by
  unfold find
  rw [find_loop_eq_neg_one]
  constructor
  · intro h j hj; exact h j (Nat.zero_le _) (by omega)
  · intro h j _ hj; exact h j (by omega)

/-- The result of `find` depends on the data fields of the slots only. -/
theorem find_loop_congr (vs ws : List Vertex) (key : Int)
    (h : ∀ j : Nat, (vs.getD j Vertex_zero).data = (ws.getD j Vertex_zero).data) :
    ∀ n i : Nat, find.loop vs key n i = find.loop ws key n i := by
  intro n
  induction n with
  | zero => intro i; rfl
  | succ n ih => intro i; simp only [find.loop, h i, ih (i + 1)]

theorem find_setVertex (g : Graph) (i : Int) (v : Vertex) (key : Int)
    (h : v.data = (g.vertexAt i).data) :
    find (g.setVertex i v).vertices (g.setVertex i v).size key = find g.vertices g.size key := by
  unfold find
  apply find_loop_congr
  intro j
  simp only [Graph.setVertex, List.getD_eq_getElem?_getD, List.getElem?_set]
  by_cases hij : i.toNat = j
  · subst hij
    by_cases hl : i.toNat < g.vertices.length
    · simp only [if_true, hl, Option.getD_some, h, Graph.vertexAt, List.getD_eq_getElem?_getD]
    · simp only [if_true, hl, if_false, Option.getD_none]
      rw [List.getElem?_eq_none (by omega)]; rfl
  · simp [hij]

theorem find_of_inserted (g : Graph) (v : Int) (hs : g.len ≤ g.size) (h : g.Inserted v) :
    ∃ k : Nat, find g.vertices g.size v = (k : Int) ∧ (k : Int) < g.len ∧
      (g.vertexAt k).data = v := by
  obtain ⟨i, hi, hd⟩ := h
  rcases find_cases g.vertices g.size v with h1 | ⟨k, h1, h2, h3, h4⟩
  · rw [find_eq_neg_one] at h1
    exact absurd (by simpa [Graph.vertexAt] using hd) (h1 i (by omega))
  · refine ⟨k, h1, ?_, by simpa [Graph.vertexAt] using h3⟩
    by_contra hk
    have : i < k := by omega
    exact h4 i this (by simpa [Graph.vertexAt] using hd)

/-! ## Lemmas on `insert` -/

@[simp] theorem insert_data (v : Vertex) (i : Int) (w : CFloat) :
    (insert v i w).data = v.data := by
  unfold insert
  cases h : v.neighbors <;> simp [h] <;> split <;> simp_all

/-- The records of a vertex after `insert`: unchanged when a record for the index
is there already, else the new record is appended. -/
theorem insert_items (v : Vertex) (i : Int) (w : CFloat) :
    (insert v i w).items =
      if i ∈ v.indices then v.items else v.items ++ [{ index := i, weight := w }] := by
  unfold insert Vertex.indices Vertex.items
  cases h : v.neighbors with
  | none => simp [h, find_neighbor, List_Find, List_New, List_Push_back]
  | some l =>
    cases hb : l.items.any (fun d => decide (d.index = i)) with
    | true =>
      have hm : i ∈ List.map Data.index l.items := by
        rw [List.any_eq_true] at hb
        obtain ⟨d, hd1, hd2⟩ := hb
        exact List.mem_map.mpr ⟨d, hd1, by simpa using hd2⟩
      simp only [h, find_neighbor, List_Find, hb, Option.isNone_some, Bool.false_eq_true,
        if_false, Bool.not_true, if_pos hm]
    | false =>
      have hm : ¬ i ∈ List.map Data.index l.items := by
        intro hm
        obtain ⟨d, hd1, hd2⟩ := List.mem_map.mp hm
        have : (l.items.any fun d => decide (d.index = i)) = true :=
          List.any_eq_true.mpr ⟨d, hd1, by simpa using hd2⟩
        rw [hb] at this; exact Bool.noConfusion this
      simp only [h, find_neighbor, List_Find, hb, Option.isNone_some, Bool.false_eq_true,
        if_false, Bool.not_false, if_true, if_neg hm, List_Push_back]

theorem insert_indices (v : Vertex) (i : Int) (w : CFloat) :
    (insert v i w).indices = if i ∈ v.indices then v.indices else v.indices ++ [i] := by
  have h := insert_items v i w
  unfold Vertex.indices at *
  rw [h]
  split <;> simp

/-- When a record for the index is there already, `insert` changes nothing. -/
theorem insert_of_mem (v : Vertex) (i : Int) (w : CFloat) (hm : i ∈ v.indices) :
    insert v i w = v := by
  unfold Vertex.indices Vertex.items at hm
  unfold insert
  cases h : v.neighbors with
  | none => simp [h] at hm
  | some l =>
    simp only [h] at hm
    have : (l.items.any fun d => decide (d.index = i)) = true := by
      simpa [List.any_eq_true] using hm
    simp [h, find_neighbor, List_Find, this]

theorem mem_insert_indices (v : Vertex) (i : Int) (w : CFloat) :
    i ∈ (insert v i w).indices := by
  rw [insert_indices]; split <;> simp_all

theorem mem_insert_indices_iff (v : Vertex) (i j : Int) (w : CFloat) :
    j ∈ (insert v i w).indices ↔ j ∈ v.indices ∨ j = i := by
  rw [insert_indices]
  split
  · next h =>
    constructor
    · intro h1; exact Or.inl h1
    · rintro (h1 | h1)
      · exact h1
      · subst h1; exact h
  · simp

theorem insert_nodup (v : Vertex) (i : Int) (w : CFloat) (h : v.indices.Nodup) :
    (insert v i w).indices.Nodup := by
  rw [insert_indices]
  split
  · exact h
  · next hm =>
    rw [List.nodup_append]
    refine ⟨h, List.nodup_singleton i, ?_⟩
    intro x hx hx2
    simp only [List.mem_singleton] at hx2
    subst hx2; exact hm hx

/-- After `insert`, the index occurs exactly once in a list free of duplicates. -/
theorem count_insert_indices (v : Vertex) (i : Int) (w : CFloat) (h : v.indices.Nodup) :
    (insert v i w).indices.count i = 1 :=
  List.count_eq_one_of_mem (insert_nodup v i w h) (mem_insert_indices v i w)

/-! ## The representation invariant holds in every reachable state -/

theorem vertexAt_nodup (g : Graph) (h : g.NoDuplicates) (i : Int) :
    (g.vertexAt i).indices.Nodup := by
  by_cases hi : i.toNat < g.vertices.length
  · exact h _ (vertexAt_mem g i hi)
  · have : g.vertexAt i = Vertex_zero := by
      unfold Graph.vertexAt
      rw [List.getD_eq_getElem?_getD, List.getElem?_eq_none (by omega)]; rfl
    rw [this]
    simp [Vertex.indices, Vertex.items, Vertex_zero]

theorem setVertex_shaped (g : Graph) (i : Int) (v : Vertex) (h : g.Shaped) :
    (g.setVertex i v).Shaped := by
  unfold Graph.Shaped at *
  simpa using h

theorem setVertex_noDuplicates (g : Graph) (i : Int) (v : Vertex) (h : g.NoDuplicates)
    (hv : v.indices.Nodup) : (g.setVertex i v).NoDuplicates := by
  intro u hu
  rcases List.mem_or_eq_of_mem_set hu with h1 | h1
  · exact h u h1
  · rw [h1]; exact hv

theorem setVertex_insert_valid (g : Graph) (i j : Int) (w : CFloat) (h : g.Valid) :
    (g.setVertex i (insert (g.vertexAt i) j w)).Valid :=
  ⟨setVertex_shaped g i _ h.1,
    setVertex_noDuplicates g i _ h.2 (insert_nodup _ j w (vertexAt_nodup g h.2 i))⟩

theorem Graph_New_valid (size : Int) (type : eGraphType) (g : Graph)
    (h : Graph_New size type = some g) : g.Valid := by
  unfold Graph_New at h
  split at h
  · next hs =>
    simp only [Option.some.injEq] at h
    subst h
    refine ⟨⟨hs, le_refl _, by simp only; omega, by simp⟩, ?_⟩
    intro v hv
    simp only [List.mem_replicate] at hv
    rw [hv.2]
    simp [Vertex.indices, Vertex.items, Vertex_zero]
  · simp at h

theorem Graph_AddVertex_valid (g g1 : Graph) (data : Int) (hv : g.Valid)
    (h : Graph_AddVertex g data = some g1) : g1.Valid := by
  unfold Graph_AddVertex at h
  split at h
  · next hl =>
    simp only [Option.some.injEq] at h
    subst h
    obtain ⟨⟨h1, h2, h3, h4⟩, h5⟩ := hv
    refine ⟨⟨h1, ?_, ?_, ?_⟩, ?_⟩
    · simp only [setVertex_len]; omega
    · simp only [setVertex_len, setVertex_size]; omega
    · simpa using h4
    · intro u hu
      rcases List.mem_or_eq_of_mem_set hu with h6 | h6
      · exact h5 u h6
      · rw [h6]; simp [Vertex.indices, Vertex.items]
  · simp at h

theorem Graph_AddEdge_none (g : Graph) (a b : Int) (h : ¬ 0 < g.len) :
    Graph_AddEdge g a b = none := by
  unfold Graph_AddEdge; rw [if_neg h]

theorem Graph_AddEdge_false (g : Graph) (a b : Int) (h : 0 < g.len)
    (h2 : find g.vertices g.size a = -1 ∨ find g.vertices g.size b = -1) :
    Graph_AddEdge g a b = some (false, g) := by
  unfold Graph_AddEdge; rw [if_pos h]; dsimp only; rw [if_pos h2]

theorem Graph_AddEdge_true (g : Graph) (a b : Int) (h : 0 < g.len)
    (h2 : ¬ (find g.vertices g.size a = -1 ∨ find g.vertices g.size b = -1)) :
    Graph_AddEdge g a b = some (true, edgeResult g (find g.vertices g.size a)
      (find g.vertices g.size b) (double_to_float CFloat.zero)
      (decide (g.type = eGraphType.eGraphType_UNDIRECTED))) := by
  unfold Graph_AddEdge edgeResult; rw [if_pos h]; dsimp only; rw [if_neg h2]
  by_cases ht : g.type = eGraphType.eGraphType_UNDIRECTED <;> simp [ht]

theorem Graph_AddWeightedEdge_none (g : Graph) (a b : Int) (w : CFloat) (h : ¬ 0 < g.len) :
    Graph_AddWeightedEdge g a b w = none := by
  unfold Graph_AddWeightedEdge; rw [if_neg h]

theorem Graph_AddWeightedEdge_false (g : Graph) (a b : Int) (w : CFloat) (h : 0 < g.len)
    (h2 : find g.vertices g.size a = -1 ∨ find g.vertices g.size b = -1) :
    Graph_AddWeightedEdge g a b w = some (false, g) := by
  unfold Graph_AddWeightedEdge; rw [if_pos h]; dsimp only; rw [if_pos h2]

theorem Graph_AddWeightedEdge_true (g : Graph) (a b : Int) (w : CFloat) (h : 0 < g.len)
    (h2 : ¬ (find g.vertices g.size a = -1 ∨ find g.vertices g.size b = -1)) :
    Graph_AddWeightedEdge g a b w = some (true, edgeResult g (find g.vertices g.size a)
      (find g.vertices g.size b) (double_to_float w)
      (decide (g.type = eGraphType.eGraphType_UNDIRECTED))) := by
  unfold Graph_AddWeightedEdge edgeResult; rw [if_pos h]; dsimp only; rw [if_neg h2]
  cases ht : g.type <;> simp

theorem edgeResult_valid (g : Graph) (i j : Int) (w : CFloat) (both : Bool) (h : g.Valid) :
    (edgeResult g i j w both).Valid := by
  unfold edgeResult
  cases both
  · exact setVertex_insert_valid _ _ _ _ h
  · exact setVertex_insert_valid _ _ _ _ (setVertex_insert_valid _ _ _ _ h)

theorem Graph_AddEdge_valid (g g1 : Graph) (a b : Int) (r : Bool) (hv : g.Valid)
    (h : Graph_AddEdge g a b = some (r, g1)) : g1.Valid := by
  by_cases hl : 0 < g.len
  · by_cases h2 : find g.vertices g.size a = -1 ∨ find g.vertices g.size b = -1
    · rw [Graph_AddEdge_false g a b hl h2] at h
      simp only [Option.some.injEq, Prod.mk.injEq] at h
      rw [← h.2]; exact hv
    · rw [Graph_AddEdge_true g a b hl h2] at h
      simp only [Option.some.injEq, Prod.mk.injEq] at h
      rw [← h.2]; exact edgeResult_valid _ _ _ _ _ hv
  · rw [Graph_AddEdge_none g a b hl] at h; simp at h

theorem Graph_AddWeightedEdge_valid (g g1 : Graph) (a b : Int) (w : CFloat) (r : Bool)
    (hv : g.Valid) (h : Graph_AddWeightedEdge g a b w = some (r, g1)) : g1.Valid := by
  by_cases hl : 0 < g.len
  · by_cases h2 : find g.vertices g.size a = -1 ∨ find g.vertices g.size b = -1
    · rw [Graph_AddWeightedEdge_false g a b w hl h2] at h
      simp only [Option.some.injEq, Prod.mk.injEq] at h
      rw [← h.2]; exact hv
    · rw [Graph_AddWeightedEdge_true g a b w hl h2] at h
      simp only [Option.some.injEq, Prod.mk.injEq] at h
      rw [← h.2]; exact edgeResult_valid _ _ _ _ _ hv
  · rw [Graph_AddWeightedEdge_none g a b w hl] at h; simp at h

theorem Op_apply_valid (g g1 : Graph) (op : Op) (hv : g.Valid) (h : op.apply g = some g1) :
    g1.Valid := by
  cases op with
  | addVertex data => exact Graph_AddVertex_valid g g1 data hv h
  | addEdge a b =>
    cases hr : Graph_AddEdge g a b with
    | none => simp [Op.apply, hr] at h
    | some p =>
      obtain ⟨r, g2⟩ := p
      simp only [Op.apply, hr, Option.map_some', Option.some.injEq] at h
      subst h
      exact Graph_AddEdge_valid g g2 a b r hv hr
  | addWeightedEdge a b w =>
    cases hr : Graph_AddWeightedEdge g a b w with
    | none => simp [Op.apply, hr] at h
    | some p =>
      obtain ⟨r, g2⟩ := p
      simp only [Op.apply, hr, Option.map_some', Option.some.injEq] at h
      subst h
      exact Graph_AddWeightedEdge_valid g g2 a b w r hv hr

/-- Every reachable state satisfies the representation invariant. -/
theorem Reachable.valid (g : Graph) (h : Reachable g) : g.Valid := by
  induction h with
  | new size type g h => exact Graph_New_valid size type g h
  | step g g1 op _ h ih => exact Op_apply_valid g g1 op ih h

/-! ## Lemmas on the result of an edge insertion -/

@[simp] theorem edgeResult_size (g : Graph) (i j : Int) (w : CFloat) (both : Bool) :
    (edgeResult g i j w both).size = g.size := by
  unfold edgeResult; cases both <;> rfl

@[simp] theorem edgeResult_len (g : Graph) (i j : Int) (w : CFloat) (both : Bool) :
    (edgeResult g i j w both).len = g.len := by
  unfold edgeResult; cases both <;> rfl

@[simp] theorem edgeResult_type (g : Graph) (i j : Int) (w : CFloat) (both : Bool) :
    (edgeResult g i j w both).type = g.type := by
  unfold edgeResult; cases both <;> rfl

@[simp] theorem edgeResult_length (g : Graph) (i j : Int) (w : CFloat) (both : Bool) :
    (edgeResult g i j w both).vertices.length = g.vertices.length := by
  unfold edgeResult; cases both <;> simp

theorem find_edgeResult (g : Graph) (i j : Int) (w : CFloat) (both : Bool) (key : Int) :
    find (edgeResult g i j w both).vertices (edgeResult g i j w both).size key =
      find g.vertices g.size key := by
  unfold edgeResult
  cases both
  · exact find_setVertex g i _ key (insert_data _ _ _)
  · simp only [if_true]
    rw [find_setVertex _ j _ key (insert_data _ _ _)]
    exact find_setVertex g i _ key (insert_data _ _ _)

/-- The vertex at the start index after an edge insertion. -/
theorem edgeResult_vertexAt_start (g : Graph) (i j : Int) (w : CFloat) (both : Bool)
    (hi : 0 ≤ i) (hj : 0 ≤ j) (hil : i.toNat < g.vertices.length) :
    (edgeResult g i j w both).vertexAt i =
      if both = true ∧ i = j then insert (insert (g.vertexAt i) i w) i w
      else insert (g.vertexAt i) j w := by
  unfold edgeResult
  cases both
  · simp only [Bool.false_eq_true, false_and, if_false]
    exact vertexAt_setVertex_same g i _ hil
  · by_cases hij : i = j
    · subst hij
      simp only [if_true, true_and]
      rw [vertexAt_setVertex_same _ i _ (by simpa using hil), vertexAt_setVertex_same g i _ hil]
    · simp only [if_true, true_and, hij, if_false]
      rw [vertexAt_setVertex_ne _ j i _ (by omega), vertexAt_setVertex_same g i _ hil]

/-- The vertex at the finish index after an edge insertion in both directions. -/
theorem edgeResult_vertexAt_finish (g : Graph) (i j : Int) (w : CFloat)
    (hi : 0 ≤ i) (hj : 0 ≤ j) (hil : i.toNat < g.vertices.length)
    (hjl : j.toNat < g.vertices.length) :
    (edgeResult g i j w true).vertexAt j =
      if i = j then insert (insert (g.vertexAt i) i w) i w
      else insert (g.vertexAt j) i w := by
  unfold edgeResult
  simp only [if_true]
  rw [vertexAt_setVertex_same _ j _ (by simpa using hjl)]
  by_cases hij : i = j
  · subst hij
    simp only [if_true]
    rw [vertexAt_setVertex_same g i _ hil]
  · simp only [hij, if_false]
    rw [vertexAt_setVertex_ne g i j _ (by omega)]

/-- The vertex at the finish index after an edge insertion in one direction
between two different indices is untouched. -/
theorem edgeResult_vertexAt_finish_directed (g : Graph) (i j : Int) (w : CFloat)
    (hi : 0 ≤ i) (hj : 0 ≤ j) (hij : i ≠ j) :
    (edgeResult g i j w false).vertexAt j = g.vertexAt j := by
  unfold edgeResult
  simp only [Bool.false_eq_true, if_false]
  exact vertexAt_setVertex_ne g i j _ (by omega)

theorem edgeResult_mem_start (g : Graph) (i j : Int) (w : CFloat) (both : Bool)
    (hi : 0 ≤ i) (hj : 0 ≤ j) (hil : i.toNat < g.vertices.length) :
    j ∈ ((edgeResult g i j w both).vertexAt i).indices := by
  rw [edgeResult_vertexAt_start g i j w both hi hj hil]
  split
  · next h => rw [← h.2]; exact mem_insert_indices _ _ _
  · exact mem_insert_indices _ _ _

theorem edgeResult_mem_finish (g : Graph) (i j : Int) (w : CFloat)
    (hi : 0 ≤ i) (hj : 0 ≤ j) (hil : i.toNat < g.vertices.length)
    (hjl : j.toNat < g.vertices.length) :
    i ∈ ((edgeResult g i j w true).vertexAt j).indices := by
  rw [edgeResult_vertexAt_finish g i j w hi hj hil hjl]
  split <;> exact mem_insert_indices _ _ _

/-- An edge insertion repeated on its own result changes nothing. -/
theorem edgeResult_idem (g : Graph) (i j : Int) (w w2 : CFloat) (both : Bool)
    (hi : 0 ≤ i) (hj : 0 ≤ j) (hil : i.toNat < g.vertices.length)
    (hjl : j.toNat < g.vertices.length) :
    edgeResult (edgeResult g i j w both) i j w2 both = edgeResult g i j w both := by
  have h1 : j ∈ ((edgeResult g i j w both).vertexAt i).indices :=
    edgeResult_mem_start g i j w both hi hj hil
  generalize hG : edgeResult g i j w both = G at h1
  have e1 : G.setVertex i (insert (G.vertexAt i) j w2) = G := by
    rw [insert_of_mem _ _ _ h1, setVertex_vertexAt]
  cases both
  · unfold edgeResult
    simp only [Bool.false_eq_true, if_false]
    exact e1
  · have h2 : i ∈ (G.vertexAt j).indices := by
      rw [← hG]; exact edgeResult_mem_finish g i j w hi hj hil hjl
    show (let g1 := G.setVertex i (insert (G.vertexAt i) j w2);
      if true = true then g1.setVertex j (insert (g1.vertexAt j) i w2) else g1) = G
    simp only [if_true]
    rw [e1, insert_of_mem _ _ _ h2, setVertex_vertexAt]

/-- After an edge insertion the finish index occurs exactly once in the list at
the start index. -/
theorem edgeResult_count_start (g : Graph) (i j : Int) (w : CFloat) (both : Bool)
    (hv : g.Valid) (hi : 0 ≤ i) (hj : 0 ≤ j) (hil : i.toNat < g.vertices.length) :
    ((edgeResult g i j w both).vertexAt i).indices.count j = 1 :=
  List.count_eq_one_of_mem
    (vertexAt_nodup _ (edgeResult_valid g i j w both hv).2 i)
    (edgeResult_mem_start g i j w both hi hj hil)

/-- After an edge insertion in both directions the start index occurs exactly
once in the list at the finish index. -/
theorem edgeResult_count_finish (g : Graph) (i j : Int) (w : CFloat)
    (hv : g.Valid) (hi : 0 ≤ i) (hj : 0 ≤ j) (hil : i.toNat < g.vertices.length)
    (hjl : j.toNat < g.vertices.length) :
    ((edgeResult g i j w true).vertexAt j).indices.count i = 1 :=
  List.count_eq_one_of_mem
    (vertexAt_nodup _ (edgeResult_valid g i j w true hv).2 j)
    (edgeResult_mem_finish g i j w hi hj hil hjl)

/-- What `find` returns for an inserted value, with the facts the edge operations
need about it. -/
theorem find_inserted_facts (g : Graph) (v : Int) (hs : g.Shaped) (h : g.Inserted v) :
    find g.vertices g.size v ≠ -1 ∧ 0 ≤ find g.vertices g.size v ∧
      find g.vertices g.size v < g.len ∧
      (find g.vertices g.size v).toNat < g.vertices.length := by
  obtain ⟨k, h1, h2, _⟩ := find_of_inserted g v hs.2.2.1 h
  obtain ⟨_, _, h5, h6⟩ := hs
  rw [h1, h6]
  omega

/-! ## Lemmas on `Graph_GetWeight` -/

theorem scan_spec (ib : Int) (items : List Data) :
    ∀ (fuel p : Nat) (v : Vertex) (l : NeighborList), v.neighbors = some l → l.items = items →
      l.cursor = (if p < items.length then some p else none) → items.length - p < fuel →
      ∃ v1 : Vertex, Graph_GetWeight.scan ib fuel v =
        some (((items.drop p).find? (fun d => decide (d.index = ib))).map Data.weight, v1) := by
  intro fuel
  induction fuel with
  | zero => intro p v l _ _ _ h; omega
  | succ fuel ih =>
    intro p v l hv hl hc hf
    by_cases hp : p < items.length
    · rw [if_pos hp] at hc
      have hend : Vertex_End v = false := by
        simp [Vertex_End, hv, List_Cursor_end, hc, hl, hp]
      have hget : Vertex_GetNeighborIndex v = some (items[p]) := by
        simp [Vertex_GetNeighborIndex, hv, List_Cursor_get, hc, hl, List.get?_eq_getElem?, hp]
      rw [List.drop_eq_getElem_cons hp]
      by_cases hd : (items[p]).index = ib
      · refine ⟨v, ?_⟩
        simp only [Graph_GetWeight.scan, hend, hget, hd, Bool.not_false, if_true,
          List.find?_cons, decide_True, Option.map_some']
      · let c : Option Nat := if p + 1 < items.length then some (p + 1) else none
        have hnext : (Vertex_Next v).neighbors = some (NeighborList.mk l.items c) := by
          simp [Vertex_Next, hv, List_Cursor_next, hc, hl, c]
        obtain ⟨v1, h1⟩ := ih (p + 1) (Vertex_Next v) _ hnext hl rfl (by omega)
        refine ⟨v1, ?_⟩
        simp only [Graph_GetWeight.scan, hend, hget, hd, Bool.not_false, if_true, if_false,
          List.find?_cons, decide_False, h1]
    · rw [if_neg hp] at hc
      have hend : Vertex_End v = true := by
        simp [Vertex_End, hv, List_Cursor_end, hc]
      refine ⟨v, ?_⟩
      rw [List.drop_eq_nil_of_le (by omega)]
      simp [Graph_GetWeight.scan, hend]

/-- The traversal `Graph_GetWeight` makes of the list of a vertex returns the
weight of the first record for the index, if there is one. -/
theorem scan_start (ib : Int) (v : Vertex) :
    ∃ v1 : Vertex,
      Graph_GetWeight.scan ib
        ((match (Vertex_Start v).neighbors with
          | none => 0
          | some l => l.items.length) + 1) (Vertex_Start v) = some (v.weightOf ib, v1) := by
  cases hv : v.neighbors with
  | none =>
    refine ⟨Vertex_Start v, ?_⟩
    simp [Vertex_Start, hv, List_Cursor_front, Graph_GetWeight.scan, Vertex_End, List_Cursor_end,
      Vertex.weightOf, Vertex.items]
  | some l =>
    have hs : (Vertex_Start v).neighbors =
        some { l with cursor := if l.items = [] then none else some 0 } := by
      simp [Vertex_Start, hv, List_Cursor_front]
    have hc : (if l.items = [] then none else some 0) =
        (if 0 < l.items.length then some 0 else none) := by
      cases l.items <;> simp
    obtain ⟨v1, h1⟩ := scan_spec ib l.items (l.items.length + 1) 0 (Vertex_Start v) _ hs rfl hc
      (by omega)
    refine ⟨v1, ?_⟩
    rw [hs]
    simp only [List.drop_zero] at h1
    simpa [Vertex.weightOf, Vertex.items, hv] using h1

theorem loop_miss (ia ib : Int) :
    ∀ (n i : Nat) (g : Graph), (∀ j : Nat, i ≤ j → j < i + n → ia ≠ (j : Int)) →
      Graph_GetWeight.loop ia ib n i g = some (CFloat.zero, g) := by
  intro n
  induction n with
  | zero => intro i g _; rfl
  | succ n ih =>
    intro i g h
    have h1 : ia ≠ (i : Int) := h i (le_refl _) (by omega)
    simp only [Graph_GetWeight.loop, h1, if_false]
    exact ih (i + 1) g (fun j hj1 hj2 => h j (by omega) (by omega))

theorem loop_hit (ib : Int) (k : Nat) :
    ∀ (n i : Nat) (g : Graph), i ≤ k → k < i + n → (k : Int) < g.len →
      ∃ g1 : Graph, Graph_GetWeight.loop (k : Int) ib n i g =
        some (((g.vertexAt k).weightOf ib).getD CFloat.zero, g1) := by
  intro n
  induction n with
  | zero => intro i g h1 h2; omega
  | succ n ih =>
    intro i g h1 h2 h3
    by_cases hki : k = i
    · subst hki
      have hget : Graph_GetVertexByIndex g (k : Int) = some (g.vertexAt k) := by
        simp [Graph_GetVertexByIndex, h3]
      obtain ⟨v1, hs⟩ := scan_start ib (g.vertexAt k)
      simp only [Graph_GetWeight.loop, if_true, hget, hs]
      cases hw : (g.vertexAt k).weightOf ib with
      | some w => exact ⟨_, rfl⟩
      | none =>
        refine ⟨g.setVertex k v1, ?_⟩
        simp only [Option.getD_none]
        exact loop_miss _ ib n (k + 1) _ (fun j hj1 _ => by omega)
    · have hne : ((k : Int) = (i : Int)) = False := by
        simp only [eq_iff_iff, iff_false]; omega
      simp only [Graph_GetWeight.loop, hne, if_false]
      exact ih (i + 1) g (by omega) (by omega) h3

/-- The weight `Graph_GetWeight` returns: `0.0` when a value is not found or the
start index is not that of a live vertex, else the weight of the first record
for the finish index in the list at the start index, `0.0` when there is none. -/
theorem Graph_GetWeight_spec (g : Graph) (a b : Int) (hl : 0 < g.len) :
    ∃ g1 : Graph, Graph_GetWeight g a b =
      some (if find g.vertices g.size a = -1 ∨ find g.vertices g.size b = -1 then CFloat.zero
        else if find g.vertices g.size a < g.len then
          ((g.vertexAt (find g.vertices g.size a)).weightOf (find g.vertices g.size b)).getD
            CFloat.zero
        else CFloat.zero, g1) := by
  unfold Graph_GetWeight
  rw [if_pos hl]
  dsimp only
  by_cases h : find g.vertices g.size a = -1 ∨ find g.vertices g.size b = -1
  · rw [if_pos h, if_pos h]; exact ⟨g, rfl⟩
  · rw [if_neg h, if_neg h]
    rcases find_cases g.vertices g.size a with h1 | ⟨k, h1, _⟩
    · exact absurd (Or.inl h1) h
    · rw [h1]
      by_cases hk : (k : Int) < g.len
      · rw [if_pos hk]
        obtain ⟨g1, h2⟩ := loop_hit (find g.vertices g.size b) k g.len.toNat 0 g (Nat.zero_le _)
          (by omega) hk
        exact ⟨g1, h2⟩
      · rw [if_neg hk]
        exact ⟨g, loop_miss _ _ _ _ _ (fun j _ hj => by omega)⟩

/-! ## Lemmas on the weight recorded by an edge insertion -/

theorem weightOf_insert_new (v : Vertex) (j : Int) (w : CFloat) (h : j ∉ v.indices) :
    (insert v j w).weightOf j = some w := by
  unfold Vertex.weightOf
  rw [insert_items, if_neg h, List.find?_append]
  have hnone : v.items.find? (fun d => decide (d.index = j)) = none := by
    rw [List.find?_eq_none]
    intro d hd hj
    exact h (List.mem_map.mpr ⟨d, hd, by simpa using hj⟩)
  rw [hnone]
  simp

/-- In a list free of duplicate indices, the first record for an index is the
only one. -/
theorem find?_of_mem_nodup (items : List Data) (d : Data)
    (hn : (items.map Data.index).Nodup) (hd : d ∈ items) :
    items.find? (fun x => decide (x.index = d.index)) = some d := by
  induction items with
  | nil => simp at hd
  | cons x xs ih =>
    simp only [List.map_cons, List.nodup_cons] at hn
    rcases List.mem_cons.mp hd with h | h
    · subst h; simp
    · have hne : x.index ≠ d.index := by
        intro he
        exact hn.1 (he ▸ List.mem_map.mpr ⟨d, h, rfl⟩)
      simp only [List.find?_cons, hne, decide_False]
      exact ih hn.2 h

theorem weightOf_of_mem (v : Vertex) (d : Data) (hn : v.indices.Nodup) (hd : d ∈ v.items) :
    v.weightOf d.index = some d.weight := by
  unfold Vertex.weightOf
  rw [find?_of_mem_nodup v.items d hn hd]; rfl

theorem weightOf_of_not_mem (v : Vertex) (j : Int) (h : j ∉ v.indices) :
    v.weightOf j = none := by
  unfold Vertex.weightOf
  have hnone : v.items.find? (fun d => decide (d.index = j)) = none := by
    rw [List.find?_eq_none]
    intro d hd hj
    exact h (List.mem_map.mpr ⟨d, hd, by simpa using hj⟩)
  rw [hnone]; rfl

/-- The list at the start index after an edge insertion is the one `insert` makes
of the list that was there. -/
theorem edgeResult_vertexAt_start_eq (g : Graph) (i j : Int) (w : CFloat) (both : Bool)
    (hi : 0 ≤ i) (hj : 0 ≤ j) (hil : i.toNat < g.vertices.length) :
    (edgeResult g i j w both).vertexAt i = insert (g.vertexAt i) j w := by
  rw [edgeResult_vertexAt_start g i j w both hi hj hil]
  split
  · next h =>
    rw [← h.2]
    exact insert_of_mem _ _ _ (mem_insert_indices _ _ _)
  · rfl

/-- What the code does for C3: after `Graph_AddWeightedEdge(g, a, b, w)` creates
the record, `Graph_GetWeight(g, a, b)` returns `w` converted to `float`. -/
theorem Graph_GetWeight_after_AddWeightedEdge (g : Graph) (a b : Int) (w : CFloat)
    (hr : Reachable g) (ha : g.Inserted a) (hb : g.Inserted b)
    (hno : find g.vertices g.size b ∉ (g.vertexAt (find g.vertices g.size a)).indices) :
    ∃ g1 g2 : Graph,
      Graph_AddWeightedEdge g a b w = some (true, g1) ∧
      Graph_GetWeight g1 a b = some (double_to_float w, g2) := by
  have hv := Reachable.valid g hr
  obtain ⟨a1, a2, a3, a4⟩ := find_inserted_facts g a hv.1 ha
  obtain ⟨b1, b2, b3, b4⟩ := find_inserted_facts g b hv.1 hb
  have hl : 0 < g.len := by omega
  have h2 : ¬ (find g.vertices g.size a = -1 ∨ find g.vertices g.size b = -1) := by
    rintro (h | h)
    · exact a1 h
    · exact b1 h
  have e1 := Graph_AddWeightedEdge_true g a b w hl h2
  generalize hb2 : decide (g.type = eGraphType.eGraphType_UNDIRECTED) = both at e1
  have hat := edgeResult_vertexAt_start_eq g _ _ (double_to_float w) both a2 b2 a4
  generalize hG : edgeResult g (find g.vertices g.size a) (find g.vertices g.size b)
    (double_to_float w) both = G at e1 hat
  have fa : find G.vertices G.size a = find g.vertices g.size a := by
    rw [← hG]; exact find_edgeResult _ _ _ _ _ _
  have fb : find G.vertices G.size b = find g.vertices g.size b := by
    rw [← hG]; exact find_edgeResult _ _ _ _ _ _
  have hGlen : G.len = g.len := by rw [← hG]; simp
  obtain ⟨g2, e2⟩ := Graph_GetWeight_spec G a b (by omega)
  refine ⟨G, g2, e1, ?_⟩
  rw [e2, fa, fb, if_neg h2, if_pos (by omega), hat, weightOf_insert_new _ _ _ hno]
  rfl

/-! ## Lemmas on sequences of calls -/

theorem vertexAt_setVertex_data (g : Graph) (i k : Int) (v : Vertex)
    (h : v.data = (g.vertexAt i).data) :
    ((g.setVertex i v).vertexAt k).data = (g.vertexAt k).data := by
  by_cases hik : i.toNat = k.toNat
  · have e : ∀ g1 : Graph, g1.vertexAt k = g1.vertexAt i := by
      intro g1; unfold Graph.vertexAt; rw [hik]
    rw [e, e]
    by_cases hl : i.toNat < g.vertices.length
    · rw [vertexAt_setVertex_same g i v hl]; exact h
    · have : g.setVertex i v = g := by
        unfold Graph.setVertex
        rw [List.set_eq_of_length_le (by omega)]
      rw [this]
  · rw [vertexAt_setVertex_ne g i k v hik]

theorem edgeResult_data (g : Graph) (i j : Int) (w : CFloat) (both : Bool) (k : Int) :
    ((edgeResult g i j w both).vertexAt k).data = (g.vertexAt k).data := by
  unfold edgeResult
  cases both
  · exact vertexAt_setVertex_data g i k _ (insert_data _ _ _)
  · simp only [if_true]
    rw [vertexAt_setVertex_data _ j k _ (insert_data _ _ _)]
    exact vertexAt_setVertex_data g i k _ (insert_data _ _ _)

theorem edgeResult_holdsValues (g : Graph) (i j : Int) (w : CFloat) (both : Bool)
    (vs : List Int) (h : g.HoldsValues vs) : (edgeResult g i j w both).HoldsValues vs := by
  refine ⟨by simpa using h.1, ?_⟩
  intro k hk
  rw [edgeResult_data]
  exact h.2 k hk

/-- An edge call on a graph with `len > 0` returns normally and changes neither
the shape of the graph nor the data of any slot. -/
theorem edge_apply (g : Graph) (op : Op) (vs : List Int) (hl : 0 < g.len)
    (hop : ∀ d, op ≠ Op.addVertex d) (hs : g.Shaped) (hv : g.HoldsValues vs) :
    ∃ g1 : Graph, op.apply g = some g1 ∧ g1.Shaped ∧ g1.size = g.size ∧ g1.type = g.type ∧
      g1.HoldsValues vs := by
  have shaped : ∀ (i j : Int) (w : CFloat) (both : Bool), (edgeResult g i j w both).Shaped := by
    intro i j w both
    unfold Graph.Shaped at *
    simpa using hs
  cases op with
  | addVertex d => exact absurd rfl (hop d)
  | addEdge a b =>
    by_cases h2 : find g.vertices g.size a = -1 ∨ find g.vertices g.size b = -1
    · exact ⟨g, by simp [Op.apply, Graph_AddEdge_false g a b hl h2], hs, rfl, rfl, hv⟩
    · exact ⟨edgeResult g (find g.vertices g.size a) (find g.vertices g.size b)
          (double_to_float CFloat.zero) (decide (g.type = eGraphType.eGraphType_UNDIRECTED)),
        by simp only [Op.apply, Graph_AddEdge_true g a b hl h2, Option.map_some'],
        shaped _ _ _ _, by simp, by simp, edgeResult_holdsValues _ _ _ _ _ vs hv⟩
  | addWeightedEdge a b w =>
    by_cases h2 : find g.vertices g.size a = -1 ∨ find g.vertices g.size b = -1
    · exact ⟨g, by simp [Op.apply, Graph_AddWeightedEdge_false g a b w hl h2], hs, rfl, rfl, hv⟩
    · exact ⟨edgeResult g (find g.vertices g.size a) (find g.vertices g.size b)
          (double_to_float w) (decide (g.type = eGraphType.eGraphType_UNDIRECTED)),
        by simp only [Op.apply, Graph_AddWeightedEdge_true g a b w hl h2, Option.map_some'],
        shaped _ _ _ _, by simp, by simp, edgeResult_holdsValues _ _ _ _ _ vs hv⟩

theorem Graph_AddVertex_some (g : Graph) (d : Int) (h : g.len < g.size) :
    Graph_AddVertex g d = some (vertexResult g d) := by
  unfold Graph_AddVertex; rw [if_pos h]; rfl

theorem Graph_AddVertex_none (g : Graph) (d : Int) (h : ¬ g.len < g.size) :
    Graph_AddVertex g d = none := by
  unfold Graph_AddVertex; rw [if_neg h]

theorem vertexResult_vertexAt (g : Graph) (d : Int) (k : Int) :
    (vertexResult g d).vertexAt k =
      (g.setVertex g.len { g.vertexAt g.len with data := d, neighbors := none }).vertexAt k :=
  rfl

/-- The call `Graph_AddVertex` on a graph with a free slot returns normally and
places the value at index `len`. -/
theorem vertex_apply (g : Graph) (d : Int) (vs : List Int) (hl : g.len < g.size)
    (hs : g.Shaped) (hv : g.HoldsValues vs) :
    ∃ g1 : Graph, Graph_AddVertex g d = some g1 ∧ g1.Shaped ∧ g1.size = g.size ∧
      g1.type = g.type ∧ g1.HoldsValues (vs ++ [d]) := by
  obtain ⟨h1, h2, h3, h4⟩ := hs
  obtain ⟨h5, h6⟩ := hv
  refine ⟨vertexResult g d, Graph_AddVertex_some g d hl, ⟨h1, ?_, ?_, ?_⟩, rfl, rfl, ?_, ?_⟩
  · show 0 ≤ g.len + 1
    omega
  · show g.len + 1 ≤ g.size
    omega
  · show (g.vertices.set _ _).length = g.size.toNat
    rw [List.length_set]; exact h4
  · show g.len + 1 = ((vs ++ [d]).length : Int)
    rw [List.length_append, List.length_singleton]
    push_cast
    omega
  · intro i hi
    simp only [List.length_append, List.length_singleton] at hi
    rw [vertexResult_vertexAt]
    by_cases hlt : i < vs.length
    · rw [vertexAt_setVertex_ne g g.len i _ (by omega), List.getElem?_append_left hlt]
      exact h6 i hlt
    · have hi2 : i = vs.length := by omega
      have hi3 : (i : Int) = g.len := by omega
      rw [hi3, vertexAt_setVertex_same g g.len _ (by omega), hi2]
      simp

/-- A sequence of calls that fills no more than the free slots and makes no edge
call on an empty graph returns normally, and the live vertices then hold the
values there were, followed by the values added, in the order of the calls. -/
theorem run_holdsValues :
    ∀ (ops : List Op) (g : Graph) (vs : List Int), g.Shaped → g.HoldsValues vs →
      g.len + ((addedValues ops).length : Int) ≤ g.size →
      (0 < g.len ∨ startsWithVertex ops) →
      ∃ g1 : Graph, run g ops = some g1 ∧ g1.Shaped ∧ g1.size = g.size ∧ g1.type = g.type ∧
        g1.HoldsValues (vs ++ addedValues ops) := by
  intro ops
  induction ops with
  | nil =>
    intro g vs hs hv _ _
    exact ⟨g, rfl, hs, rfl, rfl, by simpa [addedValues] using hv⟩
  | cons op ops ih =>
    intro g vs hs hv hn hstart
    cases op with
    | addVertex d =>
      simp only [addedValues, List.length_cons, Nat.cast_add, Nat.cast_one] at hn
      obtain ⟨g1, e1, s1, z1, t1, v1⟩ := vertex_apply g d vs (by omega) hs hv
      have hlen : g1.len = g.len + 1 := by
        rw [v1.1, hv.1]; simp
      obtain ⟨g2, e2, s2, z2, t2, v2⟩ := ih g1 (vs ++ [d]) s1 v1 (by rw [z1]; omega)
        (Or.inl (by have := hs.2.1; omega))
      refine ⟨g2, ?_, s2, by rw [z2, z1], by rw [t2, t1], ?_⟩
      · simp only [run, Op.apply, e1, Option.some_bind, e2]
      · simpa [addedValues] using v2
    | addEdge a b =>
      have hl : 0 < g.len := by
        rcases hstart with h | h
        · exact h
        · exact absurd h (by simp [startsWithVertex])
      obtain ⟨g1, e1, s1, z1, t1, v1⟩ := edge_apply g (Op.addEdge a b) vs hl
        (fun d hd => Op.noConfusion hd) hs hv
      obtain ⟨g2, e2, s2, z2, t2, v2⟩ := ih g1 vs s1 v1
        (by rw [z1, v1.1, ← hv.1]; simpa [addedValues] using hn)
        (Or.inl (by rw [v1.1, ← hv.1]; exact hl))
      refine ⟨g2, ?_, s2, by rw [z2, z1], by rw [t2, t1], ?_⟩
      · simp only [run, e1, Option.some_bind, e2]
      · simpa [addedValues] using v2
    | addWeightedEdge a b w =>
      have hl : 0 < g.len := by
        rcases hstart with h | h
        · exact h
        · exact absurd h (by simp [startsWithVertex])
      obtain ⟨g1, e1, s1, z1, t1, v1⟩ := edge_apply g (Op.addWeightedEdge a b w) vs hl
        (fun d hd => Op.noConfusion hd) hs hv
      obtain ⟨g2, e2, s2, z2, t2, v2⟩ := ih g1 vs s1 v1
        (by rw [z1, v1.1, ← hv.1]; simpa [addedValues] using hn)
        (Or.inl (by rw [v1.1, ← hv.1]; exact hl))
      refine ⟨g2, ?_, s2, by rw [z2, z1], by rw [t2, t1], ?_⟩
      · simp only [run, e1, Option.some_bind, e2]
      · simpa [addedValues] using v2

theorem Graph_New_some (size : Int) (type : eGraphType) (h : 0 < size) :
    Graph_New size type = some
      { vertices := List.replicate size.toNat Vertex_zero, size := size, len := 0,
        type := type } := by
  unfold Graph_New; rw [if_pos h]

/-- The calls made on a new graph: see `run_holdsValues`. -/
theorem run_from_new (c : Int) (kind : eGraphType) (ops : List Op) (hc : 0 < c)
    (hk : ((addedValues ops).length : Int) ≤ c) (hstart : startsWithVertex ops) :
    ∃ g0 g : Graph, Graph_New c kind = some g0 ∧ run g0 ops = some g ∧ g.Shaped ∧
      g.size = c ∧ g.type = kind ∧ g.HoldsValues (addedValues ops) := by
  have hv0 := Graph_New_valid c kind _ (Graph_New_some c kind hc)
  obtain ⟨g, e, s, z, t, v⟩ := run_holdsValues ops _ [] hv0.1
    ⟨rfl, fun i hi => absurd hi (by simp)⟩ (by simpa using hk) (Or.inr hstart)
  exact ⟨_, g, Graph_New_some c kind hc, e, s, z, t, by simpa using v⟩

theorem addedValues_map_addVertex (vs : List Int) :
    addedValues (vs.map Op.addVertex) = vs := by
  induction vs with
  | nil => rfl
  | cons v vs ih => simp [addedValues, ih]

theorem startsWithVertex_map_addVertex (vs : List Int) :
    startsWithVertex (vs.map Op.addVertex) := by
  cases vs <;> simp [startsWithVertex]

theorem twoVertices_reachable (type : eGraphType) : Reachable (twoVertices type) :=
  Reachable.step
    { vertices := [{ Vertex_zero with data := 100 }, Vertex_zero], size := 2, len := 1,
      type := type }
    (twoVertices type) (Op.addVertex 200)
    (Reachable.step
      { vertices := [Vertex_zero, Vertex_zero], size := 2, len := 0, type := type }
      _ (Op.addVertex 100) (Reachable.new 2 type _ rfl) rfl)
    rfl

theorem oneOfTwo_reachable (type : eGraphType) : Reachable (oneOfTwo type) :=
  Reachable.step
    { vertices := [Vertex_zero, Vertex_zero], size := 2, len := 0, type := type }
    (oneOfTwo type) (Op.addVertex 100) (Reachable.new 2 type _ rfl) rfl

theorem zeroEdge_reachable : Reachable zeroEdge :=
  Reachable.step (twoVertices eGraphType.eGraphType_UNDIRECTED) zeroEdge (Op.addEdge 100 200)
    (twoVertices_reachable _) rfl

/-! ## Lemmas on the fields the mutators leave alone -/

@[simp] theorem insert_color (v : Vertex) (i : Int) (w : CFloat) :
    (insert v i w).color = v.color := by
  unfold insert
  cases h : v.neighbors <;> simp [h] <;> split <;> simp_all

@[simp] theorem insert_distance (v : Vertex) (i : Int) (w : CFloat) :
    (insert v i w).distance = v.distance := by
  unfold insert
  cases h : v.neighbors <;> simp [h] <;> split <;> simp_all

@[simp] theorem insert_predecessor (v : Vertex) (i : Int) (w : CFloat) :
    (insert v i w).predecessor = v.predecessor := by
  unfold insert
  cases h : v.neighbors <;> simp [h] <;> split <;> simp_all

/-- Writing a slot with a vertex that agrees with the old one on a field leaves
that field as it was in every slot. -/
theorem vertexAt_setVertex_field {α : Type} (f : Vertex → α) (g : Graph) (i k : Int)
    (v : Vertex) (h : f v = f (g.vertexAt i)) :
    f ((g.setVertex i v).vertexAt k) = f (g.vertexAt k) := by
  by_cases hik : i.toNat = k.toNat
  · have e : ∀ g1 : Graph, g1.vertexAt k = g1.vertexAt i := by
      intro g1; unfold Graph.vertexAt; rw [hik]
    rw [e, e]
    by_cases hl : i.toNat < g.vertices.length
    · rw [vertexAt_setVertex_same g i v hl]; exact h
    · have : g.setVertex i v = g := by
        unfold Graph.setVertex
        rw [List.set_eq_of_length_le (by omega)]
      rw [this]
  · rw [vertexAt_setVertex_ne g i k v hik]

theorem edgeResult_field {α : Type} (f : Vertex → α)
    (hf : ∀ (v : Vertex) (i : Int) (w : CFloat), f (insert v i w) = f v)
    (g : Graph) (i j : Int) (w : CFloat) (both : Bool) (k : Int) :
    f ((edgeResult g i j w both).vertexAt k) = f (g.vertexAt k) := by
  unfold edgeResult
  cases both
  · exact vertexAt_setVertex_field f g i k _ (hf _ _ _)
  · simp only [if_true]
    rw [vertexAt_setVertex_field f _ j k _ (hf _ _ _)]
    exact vertexAt_setVertex_field f g i k _ (hf _ _ _)

/-- An edge insertion leaves every field of every slot alone, apart from the
neighbor lists, and leaves `len`, `size` and `type` alone. -/
theorem edgeResult_frame (g : Graph) (i j : Int) (w : CFloat) (both : Bool) :
    (edgeResult g i j w both).len = g.len ∧ (edgeResult g i j w both).size = g.size ∧
    (edgeResult g i j w both).type = g.type ∧
    ∀ k : Int,
      ((edgeResult g i j w both).vertexAt k).data = (g.vertexAt k).data ∧
      ((edgeResult g i j w both).vertexAt k).color = (g.vertexAt k).color ∧
      ((edgeResult g i j w both).vertexAt k).distance = (g.vertexAt k).distance ∧
      ((edgeResult g i j w both).vertexAt k).predecessor = (g.vertexAt k).predecessor :=
  ⟨edgeResult_len _ _ _ _ _, edgeResult_size _ _ _ _ _, edgeResult_type _ _ _ _ _, fun k =>
    ⟨edgeResult_field Vertex.data insert_data g i j w both k,
      edgeResult_field Vertex.color insert_color g i j w both k,
      edgeResult_field Vertex.distance insert_distance g i j w both k,
      edgeResult_field Vertex.predecessor insert_predecessor g i j w both k⟩⟩

/-- The call `Graph_AddVertex` leaves the traversal fields of every slot alone. -/
theorem vertexResult_frame (g : Graph) (d : Int) (k : Int) :
    ((vertexResult g d).vertexAt k).color = (g.vertexAt k).color ∧
    ((vertexResult g d).vertexAt k).distance = (g.vertexAt k).distance ∧
    ((vertexResult g d).vertexAt k).predecessor = (g.vertexAt k).predecessor := by
  rw [vertexResult_vertexAt]
  exact ⟨vertexAt_setVertex_field Vertex.color g g.len k _ rfl,
    vertexAt_setVertex_field Vertex.distance g g.len k _ rfl,
    vertexAt_setVertex_field Vertex.predecessor g g.len k _ rfl⟩

/-- A call that returns leaves `size` and `type` as they were. -/
theorem Op_apply_size_type (g g1 : Graph) (op : Op) (h : op.apply g = some g1) :
    g1.size = g.size ∧ g1.type = g.type := by
  cases op with
  | addVertex d =>
    by_cases hl : g.len < g.size
    · simp only [Op.apply, Graph_AddVertex_some g d hl, Option.some.injEq] at h
      rw [← h]; exact ⟨rfl, rfl⟩
    · simp [Op.apply, Graph_AddVertex_none g d hl] at h
  | addEdge a b =>
    by_cases hl : 0 < g.len
    · by_cases h2 : find g.vertices g.size a = -1 ∨ find g.vertices g.size b = -1
      · simp only [Op.apply, Graph_AddEdge_false g a b hl h2, Option.map_some',
          Option.some.injEq] at h
        rw [← h]; exact ⟨rfl, rfl⟩
      · simp only [Op.apply, Graph_AddEdge_true g a b hl h2, Option.map_some',
          Option.some.injEq] at h
        rw [← h]; exact ⟨edgeResult_size _ _ _ _ _, edgeResult_type _ _ _ _ _⟩
    · simp [Op.apply, Graph_AddEdge_none g a b hl] at h
  | addWeightedEdge a b w =>
    by_cases hl : 0 < g.len
    · by_cases h2 : find g.vertices g.size a = -1 ∨ find g.vertices g.size b = -1
      · simp only [Op.apply, Graph_AddWeightedEdge_false g a b w hl h2, Option.map_some',
          Option.some.injEq] at h
        rw [← h]; exact ⟨rfl, rfl⟩
      · simp only [Op.apply, Graph_AddWeightedEdge_true g a b w hl h2, Option.map_some',
          Option.some.injEq] at h
        rw [← h]; exact ⟨edgeResult_size _ _ _ _ _, edgeResult_type _ _ _ _ _⟩
    · simp [Op.apply, Graph_AddWeightedEdge_none g a b w hl] at h

/-- A sequence of calls that returns keeps the representation invariant and
leaves `size` and `type` as they were. -/
theorem run_valid :
    ∀ (ops : List Op) (g g1 : Graph), g.Valid → run g ops = some g1 →
      g1.Valid ∧ g1.size = g.size ∧ g1.type = g.type := by
  intro ops
  induction ops with
  | nil =>
    intro g g1 hv h
    simp only [run, Option.some.injEq] at h
    rw [← h]; exact ⟨hv, rfl, rfl⟩
  | cons op ops ih =>
    intro g g1 hv h
    cases hop : op.apply g with
    | none => simp [run, hop] at h
    | some g2 =>
      simp only [run, hop, Option.some_bind] at h
      obtain ⟨h1, h2, h3⟩ := ih g2 g1 (Op_apply_valid g g2 op hv hop) h
      obtain ⟨h4, h5⟩ := Op_apply_size_type g g2 op hop
      exact ⟨h1, by rw [h2, h4], by rw [h3, h5]⟩

theorem lostRecord_reachable : Reachable lostRecord :=
  Reachable.step
    { vertices :=
        [{ Vertex_zero with
            data := 100
            neighbors :=
              some { items := [{ index := 1, weight := CFloat.zero }], cursor := none } },
         { Vertex_zero with
            neighbors :=
              some { items := [{ index := 0, weight := CFloat.zero }], cursor := none } }],
      size := 2, len := 1, type := eGraphType.eGraphType_UNDIRECTED }
    lostRecord (Op.addVertex 200)
    (Reachable.step (oneOfTwo eGraphType.eGraphType_UNDIRECTED) _ (Op.addEdge 100 0)
      (oneOfTwo_reachable _) rfl)
    rfl

/-! ## Lemmas on the range of the recorded indices -/

theorem vertexAt_out_of_range (g : Graph) (k : Int) (hk : ¬ k.toNat < g.vertices.length) :
    g.vertexAt k = Vertex_zero := by
  unfold Graph.vertexAt
  rw [List.getD_eq_getElem?_getD, List.getElem?_eq_none (by omega)]; rfl

theorem vertexAt_indices_inRange (g : Graph) (h : g.IndicesInRange) (k : Int) :
    ∀ idx ∈ (g.vertexAt k).indices, 0 ≤ idx ∧ idx < g.size := by
  by_cases hk : k.toNat < g.vertices.length
  · exact h _ (vertexAt_mem g k hk)
  · rw [vertexAt_out_of_range g k hk]
    intro idx hidx
    simp [Vertex.indices, Vertex.items, Vertex_zero] at hidx

theorem setVertex_indicesInRange (g : Graph) (i : Int) (v : Vertex) (h : g.IndicesInRange)
    (hv : ∀ idx ∈ v.indices, 0 ≤ idx ∧ idx < g.size) : (g.setVertex i v).IndicesInRange := by
  intro u hu idx hidx
  rcases List.mem_or_eq_of_mem_set hu with h1 | h1
  · exact h u h1 idx hidx
  · rw [h1] at hidx; exact hv idx hidx

theorem setVertex_insert_indicesInRange (g : Graph) (i j : Int) (w : CFloat)
    (h : g.IndicesInRange) (hj : 0 ≤ j ∧ j < g.size) :
    (g.setVertex i (insert (g.vertexAt i) j w)).IndicesInRange := by
  apply setVertex_indicesInRange g i _ h
  intro idx hidx
  rcases (mem_insert_indices_iff _ j idx w).mp hidx with h1 | h1
  · exact vertexAt_indices_inRange g h i idx h1
  · rw [h1]; exact hj

theorem edgeResult_indicesInRange (g : Graph) (i j : Int) (w : CFloat) (both : Bool)
    (h : g.IndicesInRange) (hi : 0 ≤ i ∧ i < g.size) (hj : 0 ≤ j ∧ j < g.size) :
    (edgeResult g i j w both).IndicesInRange := by
  unfold edgeResult
  cases both
  · exact setVertex_insert_indicesInRange g i j w h hj
  · exact setVertex_insert_indicesInRange _ j i w
      (setVertex_insert_indicesInRange g i j w h hj) hi

theorem find_inRange (vs : List Vertex) (size key : Int) (h : find vs size key ≠ -1) :
    0 ≤ find vs size key ∧ find vs size key < size := by
  rcases find_cases vs size key with h1 | ⟨k, h1, h2, _⟩
  · exact absurd h1 h
  · rw [h1]; omega

theorem Op_apply_indicesInRange (g g1 : Graph) (op : Op) (h : g.IndicesInRange)
    (hop : op.apply g = some g1) : g1.IndicesInRange := by
  have edge : ∀ (a b : Int) (w : CFloat),
      ¬ (find g.vertices g.size a = -1 ∨ find g.vertices g.size b = -1) →
      (edgeResult g (find g.vertices g.size a) (find g.vertices g.size b) w
        (decide (g.type = eGraphType.eGraphType_UNDIRECTED))).IndicesInRange := by
    intro a b w h2
    exact edgeResult_indicesInRange g _ _ w _ h
      (find_inRange _ _ _ (fun x => h2 (Or.inl x))) (find_inRange _ _ _ (fun x => h2 (Or.inr x)))
  cases op with
  | addVertex d =>
    by_cases hl : g.len < g.size
    · simp only [Op.apply, Graph_AddVertex_some g d hl, Option.some.injEq] at hop
      rw [← hop]
      intro u hu idx hidx
      rcases List.mem_or_eq_of_mem_set hu with h1 | h1
      · exact h u h1 idx hidx
      · rw [h1] at hidx
        simp [Vertex.indices, Vertex.items] at hidx
    · simp [Op.apply, Graph_AddVertex_none g d hl] at hop
  | addEdge a b =>
    by_cases hl : 0 < g.len
    · by_cases h2 : find g.vertices g.size a = -1 ∨ find g.vertices g.size b = -1
      · simp only [Op.apply, Graph_AddEdge_false g a b hl h2, Option.map_some',
          Option.some.injEq] at hop
        rw [← hop]; exact h
      · simp only [Op.apply, Graph_AddEdge_true g a b hl h2, Option.map_some',
          Option.some.injEq] at hop
        rw [← hop]; exact edge a b _ h2
    · simp [Op.apply, Graph_AddEdge_none g a b hl] at hop
  | addWeightedEdge a b w =>
    by_cases hl : 0 < g.len
    · by_cases h2 : find g.vertices g.size a = -1 ∨ find g.vertices g.size b = -1
      · simp only [Op.apply, Graph_AddWeightedEdge_false g a b w hl h2, Option.map_some',
          Option.some.injEq] at hop
        rw [← hop]; exact h
      · simp only [Op.apply, Graph_AddWeightedEdge_true g a b w hl h2, Option.map_some',
          Option.some.injEq] at hop
        rw [← hop]; exact edge a b _ h2
    · simp [Op.apply, Graph_AddWeightedEdge_none g a b w hl] at hop

/-- In every reachable state every recorded neighbor index is the index of a slot. -/
theorem Reachable.indicesInRange (g : Graph) (h : Reachable g) : g.IndicesInRange := by
  induction h with
  | new size type g h =>
    unfold Graph_New at h
    split at h
    · simp only [Option.some.injEq] at h
      subst h
      intro v hv idx hidx
      simp only [List.mem_replicate] at hv
      rw [hv.2] at hidx
      simp [Vertex.indices, Vertex.items, Vertex_zero] at hidx
    · simp at h
  | step g g1 op _ h ih => exact Op_apply_indicesInRange g g1 op ih h

/-! ## Lemmas on `Graph_Print` -/

/-- The inner loop of `Graph_Print` returns when every record of the list names a
slot of the array, and writes the records from the cursor on, in list order. -/
theorem print_neighbors_spec (g : Graph) (items : List Data)
    (hin : ∀ d ∈ items, 0 ≤ d.index ∧ d.index.toNat < g.vertices.length) :
    ∀ (fuel p : Nat) (v : Vertex) (l : NeighborList), v.neighbors = some l → l.items = items →
      l.cursor = (if p < items.length then some p else none) → items.length - p < fuel →
      ∃ v1 : Vertex, Graph_Print.neighbors g fuel v =
        some ((items.drop p).map
          (fun d => { weight := d.weight, data := (g.vertexAt d.index).data }), v1) := by
  intro fuel
  induction fuel with
  | zero => intro p v l _ _ _ h; omega
  | succ fuel ih =>
    intro p v l hv hl hc hf
    by_cases hp : p < items.length
    · rw [if_pos hp] at hc
      have hend : Vertex_End v = false := by
        simp [Vertex_End, hv, List_Cursor_end, hc, hl, hp]
      have hget : List_Cursor_get v.neighbors = some (items[p]) := by
        simp [hv, List_Cursor_get, hc, hl, List.get?_eq_getElem?, hp]
      have hr := hin (items[p]) (List.getElem_mem hp)
      let c : Option Nat := if p + 1 < items.length then some (p + 1) else none
      have hnext : (Vertex_Next v).neighbors = some (NeighborList.mk l.items c) := by
        simp [Vertex_Next, hv, List_Cursor_next, hc, hl, c]
      obtain ⟨v1, h1⟩ := ih (p + 1) (Vertex_Next v) _ hnext hl rfl (by omega)
      refine ⟨v1, ?_⟩
      rw [List.drop_eq_getElem_cons hp]
      simp only [Graph_Print.neighbors, hend, hget, Bool.not_false, if_true, hr, and_self, h1,
        List.map_cons]
    · rw [if_neg hp] at hc
      have hend : Vertex_End v = true := by
        simp [Vertex_End, hv, List_Cursor_end, hc]
      refine ⟨v, ?_⟩
      rw [List.drop_eq_nil_of_le (by omega)]
      simp [Graph_Print.neighbors, hend]

/-- The outer loop of `Graph_Print` returns when every record of the vertices
still to be written names a slot of the array, and writes one line for each of
them. -/
theorem print_loop_spec :
    ∀ (n i : Nat) (g : Graph),
      (∀ k : Nat, i ≤ k → ∀ idx ∈ (g.vertexAt k).indices,
        0 ≤ idx ∧ idx.toNat < g.vertices.length) →
      ∃ (out : List PrintedVertex) (g1 : Graph),
        Graph_Print.loop n i g = some (out, g1) ∧ out.length = n := by
  intro n
  induction n with
  | zero => intro i g _; exact ⟨[], g, rfl, rfl⟩
  | succ n ih =>
    intro i g h
    have hline : ∃ (written : List PrintedNeighbor) (v1 : Vertex),
        (match (g.vertexAt i).neighbors with
          | some l => Graph_Print.neighbors g (l.items.length + 1) (Vertex_Start (g.vertexAt i))
          | none => some ([], g.vertexAt i)) = some (written, v1) := by
      cases hv : (g.vertexAt i).neighbors with
      | none => exact ⟨[], g.vertexAt i, rfl⟩
      | some l =>
        have hs : (Vertex_Start (g.vertexAt i)).neighbors =
            some (NeighborList.mk l.items (if l.items = [] then none else some 0)) := by
          simp [Vertex_Start, hv, List_Cursor_front]
        have hc : (if l.items = [] then none else some 0) =
            (if 0 < l.items.length then some 0 else none) := by
          cases l.items <;> simp
        have hin : ∀ d ∈ l.items, 0 ≤ d.index ∧ d.index.toNat < g.vertices.length := by
          intro d hd
          apply h i (le_refl _)
          simp only [Vertex.indices, Vertex.items, hv]
          exact List.mem_map.mpr ⟨d, hd, rfl⟩
        obtain ⟨v1, h1⟩ := print_neighbors_spec g l.items hin (l.items.length + 1) 0
          (Vertex_Start (g.vertexAt i)) _ hs rfl hc (by omega)
        exact ⟨_, v1, h1⟩
    obtain ⟨written, v1, hw⟩ := hline
    obtain ⟨rest, g1, hr, hlen⟩ := ih (i + 1) (g.setVertex i v1) (by
      intro k hk idx hidx
      rw [vertexAt_setVertex_ne g i k v1 (by omega)] at hidx
      rw [setVertex_length]
      exact h k (by omega) idx hidx)
    refine ⟨{ index := i, data := (g.vertexAt i).data, neighbors := written } :: rest, g1, ?_,
      by simp [hlen]⟩
    simp only [Graph_Print.loop, hw, hr]

/-! ## Lemmas on the growth of the neighbor lists -/

/-- The list `insert` leaves extends the one it found by at most one record. -/
theorem insert_items_extends (v : Vertex) (idx : Int) (w : CFloat) :
    v.items <+: (insert v idx w).items ∧ (insert v idx w).items.length ≤ v.items.length + 1 := by
  rw [insert_items]
  split
  · exact ⟨⟨[], List.append_nil _⟩, Nat.le_succ _⟩
  · exact ⟨⟨_, rfl⟩, by simp⟩

/-- After a slot was written with what `insert` made of it, every slot holds what
it held or what `insert` makes of that. -/
theorem setVertex_insert_cases (g : Graph) (i idx k : Int) (w : CFloat) :
    (g.setVertex i (insert (g.vertexAt i) idx w)).vertexAt k = g.vertexAt k ∨
    ((g.setVertex i (insert (g.vertexAt i) idx w)).vertexAt k = insert (g.vertexAt k) idx w ∧
      k.toNat = i.toNat) := by
  by_cases hik : i.toNat = k.toNat
  · have e : ∀ g1 : Graph, g1.vertexAt k = g1.vertexAt i := by
      intro g1; unfold Graph.vertexAt; rw [hik]
    by_cases hl : i.toNat < g.vertices.length
    · right
      rw [e, e, vertexAt_setVertex_same g i _ hl]
      exact ⟨rfl, hik.symm⟩
    · left
      have : g.setVertex i (insert (g.vertexAt i) idx w) = g := by
        unfold Graph.setVertex
        rw [List.set_eq_of_length_le (by omega)]
      rw [this]
  · left
    exact vertexAt_setVertex_ne g i k _ hik

/-- An edge insertion extends the list of every slot by at most one record. -/
theorem edgeResult_items_extend (g : Graph) (i j : Int) (w : CFloat) (both : Bool)
    (hi : 0 ≤ i) (hj : 0 ≤ j) (k : Int) :
    (g.vertexAt k).items <+: ((edgeResult g i j w both).vertexAt k).items ∧
    ((edgeResult g i j w both).vertexAt k).items.length ≤ (g.vertexAt k).items.length + 1 := by
  have same : (g.vertexAt k).items <+: (g.vertexAt k).items ∧
      (g.vertexAt k).items.length ≤ (g.vertexAt k).items.length + 1 :=
    ⟨⟨[], List.append_nil _⟩, Nat.le_succ _⟩
  unfold edgeResult
  cases both
  · simp only [Bool.false_eq_true, if_false]
    rcases setVertex_insert_cases g i j k w with h | ⟨h, _⟩
    · rw [h]; exact same
    · rw [h]; exact insert_items_extends _ _ _
  · simp only [if_true]
    rcases setVertex_insert_cases (g.setVertex i (insert (g.vertexAt i) j w)) j i k w with
      h | ⟨h, hkj⟩
    · rw [h]
      rcases setVertex_insert_cases g i j k w with h1 | ⟨h1, _⟩
      · rw [h1]; exact same
      · rw [h1]; exact insert_items_extends _ _ _
    · rw [h]
      rcases setVertex_insert_cases g i j k w with h1 | ⟨h1, hki⟩
      · rw [h1]; exact insert_items_extends _ _ _
      · have hij : i = j := by omega
        rw [h1, ← hij, insert_of_mem _ _ _ (mem_insert_indices _ _ _)]
        exact insert_items_extends _ _ _

/-! ## Lemmas for graphs whose fields were set or whose cursors moved -/

/-- Writing a slot with a vertex that holds the same records (its traversal
fields set, or the cursor of its list moved) keeps the representation
invariant. -/
theorem setVertex_valid_of_items (g : Graph) (i : Int) (v : Vertex) (h : g.Valid)
    (hv : v.items = (g.vertexAt i).items) : (g.setVertex i v).Valid := by
  refine ⟨setVertex_shaped g i v h.1, setVertex_noDuplicates g i v h.2 ?_⟩
  have := vertexAt_nodup g h.2 i
  unfold Vertex.indices at *
  rw [hv]; exact this

/-- The sample state `queried` is what the calls named in its description leave. -/
theorem queried_from_calls (type : eGraphType) :
    ∃ g0 g1 g2 g3 : Graph,
      Graph_New 2 type = some g0 ∧
      run g0 [Op.addVertex 100, Op.addVertex 200] = some g1 ∧
      main.init 2 0 g1 = some g2 ∧
      Graph_AddWeightedEdge g2 100 100 (CFloat.finite 1 (-1)) = some (true, g3) ∧
      Graph_GetWeight g3 100 100 = some (CFloat.finite 1 (-1), queried type) := by
  cases type <;> exact ⟨_, _, _, _, rfl, rfl, rfl, rfl, rfl⟩

/-- The weight `insert` leaves for the index: the one that was there, or the new
one when there was none. -/
theorem weightOf_insert (v : Vertex) (j : Int) (w : CFloat) :
    (insert v j w).weightOf j = if j ∈ v.indices then v.weightOf j else some w := by
  split
  · next h => rw [insert_of_mem _ _ _ h]
  · next h => exact weightOf_insert_new _ _ _ h

/-- The list at the finish index after an edge insertion in both directions is
the one `insert` makes of the list that was there. -/
theorem edgeResult_vertexAt_finish_eq (g : Graph) (i j : Int) (w : CFloat)
    (hi : 0 ≤ i) (hj : 0 ≤ j) (hil : i.toNat < g.vertices.length)
    (hjl : j.toNat < g.vertices.length) :
    (edgeResult g i j w true).vertexAt j = insert (g.vertexAt j) i w := by
  rw [edgeResult_vertexAt_finish g i j w hi hj hil hjl]
  split
  · next h =>
    subst h
    exact insert_of_mem _ _ _ (mem_insert_indices _ _ _)
  · rfl

/-! ## The claims -/

/-- C1: in every undirected graph that satisfies the representation invariant
(whatever its traversal fields and list cursors are), for two values `a` and `b`
that were inserted with `Graph_AddVertex`, `Graph_AddEdge(g, a, b)` returns true,
and afterwards the list of the vertex `a` resolves to holds the index of `b`
exactly once and the list of the vertex `b` resolves to holds the index of `a`
exactly once; the same holds after a second `Graph_AddEdge(g, a, b)` made right
after the first. -/
theorem C1_undirected_edge_recorded_once (g : Graph) (a b : Int)
    (hv : g.Valid) (hu : g.type = eGraphType.eGraphType_UNDIRECTED)
    (ha : g.Inserted a) (hb : g.Inserted b) :
    ∃ g1 g2 : Graph,
      Graph_AddEdge g a b = some (true, g1) ∧ Graph_AddEdge g1 a b = some (true, g2) ∧
      (g1.vertexAt (find g.vertices g.size a)).indices.count (find g.vertices g.size b) = 1 ∧
      (g1.vertexAt (find g.vertices g.size b)).indices.count (find g.vertices g.size a) = 1 ∧
      (g2.vertexAt (find g.vertices g.size a)).indices.count (find g.vertices g.size b) = 1 ∧
      (g2.vertexAt (find g.vertices g.size b)).indices.count (find g.vertices g.size a) = 1 := by
  obtain ⟨a1, a2, a3, a4⟩ := find_inserted_facts g a hv.1 ha
  obtain ⟨b1, b2, b3, b4⟩ := find_inserted_facts g b hv.1 hb
  have hl : 0 < g.len := by omega
  have h2 : ¬ (find g.vertices g.size a = -1 ∨ find g.vertices g.size b = -1) := by
    rintro (h | h)
    · exact a1 h
    · exact b1 h
  have e1 := Graph_AddEdge_true g a b hl h2
  simp only [hu, decide_True] at e1
  generalize hG : edgeResult g (find g.vertices g.size a) (find g.vertices g.size b)
    (double_to_float CFloat.zero) true = G at e1
  have hGv : G.Valid := by rw [← hG]; exact edgeResult_valid _ _ _ _ _ hv
  have fa : find G.vertices G.size a = find g.vertices g.size a := by
    rw [← hG]; exact find_edgeResult _ _ _ _ _ _
  have fb : find G.vertices G.size b = find g.vertices g.size b := by
    rw [← hG]; exact find_edgeResult _ _ _ _ _ _
  have hGl : G.vertices.length = g.vertices.length := by rw [← hG]; simp
  have hGlen : G.len = g.len := by rw [← hG]; simp
  have hGt : G.type = eGraphType.eGraphType_UNDIRECTED := by rw [← hG]; simpa using hu
  have e2 := Graph_AddEdge_true G a b (by omega) (by rw [fa, fb]; exact h2)
  simp only [hGt, decide_True, fa, fb] at e2
  refine ⟨G, _, e1, e2, ?_, ?_, ?_, ?_⟩
  · rw [← hG]; exact edgeResult_count_start g _ _ _ _ hv a2 b2 a4
  · rw [← hG]; exact edgeResult_count_finish g _ _ _ hv a2 b2 a4 b4
  · exact edgeResult_count_start G _ _ _ _ hGv a2 b2 (by omega)
  · exact edgeResult_count_finish G _ _ _ hGv a2 b2 (by omega) (by omega)

/-- Witness of C1: the undirected graph with the vertices 100 and 200 whose
traversal fields were set and in which the list of vertex 0 was traversed by a
query (the state `queried`); the edge 100 - 200 is added. -/
theorem C1_undirected_edge_recorded_once_witness :
    (queried eGraphType.eGraphType_UNDIRECTED).Valid ∧
    (queried eGraphType.eGraphType_UNDIRECTED).type = eGraphType.eGraphType_UNDIRECTED ∧
    (queried eGraphType.eGraphType_UNDIRECTED).Inserted 100 ∧
    (queried eGraphType.eGraphType_UNDIRECTED).Inserted 200 ∧
    ∃ g1 g2 : Graph,
      Graph_AddEdge (queried eGraphType.eGraphType_UNDIRECTED) 100 200 = some (true, g1) ∧
      Graph_AddEdge g1 100 200 = some (true, g2) ∧
      (g1.vertexAt 0).indices.count 1 = 1 ∧ (g1.vertexAt 1).indices.count 0 = 1 ∧
      (g2.vertexAt 0).indices.count 1 = 1 ∧ (g2.vertexAt 1).indices.count 0 = 1 :=
  ⟨by decide, rfl, ⟨0, by decide, by decide⟩, ⟨1, by decide, by decide⟩,
    C1_undirected_edge_recorded_once (queried eGraphType.eGraphType_UNDIRECTED) 100 200
      (by decide) rfl ⟨0, by decide, by decide⟩ ⟨1, by decide, by decide⟩⟩

/-- C2: in every directed graph whose vertex array has the shape `Graph_New` and
`Graph_AddVertex` give it (whatever its neighbor lists, traversal fields and
list cursors are), for two inserted values `a` and `b` that resolve to
different indices, with no record for the index of `a` in the list of the vertex
of `b` beforehand, `Graph_AddEdge(g, a, b)` returns true and afterwards the index
of `b` is in the list of the vertex of `a` while the index of `a` is not in the
list of the vertex of `b`; the reverse record is there after a separate
`Graph_AddEdge(g, b, a)`. -/
theorem C2_directed_edge_one_way (g : Graph) (a b : Int)
    (hs : g.Shaped) (hd : g.type = eGraphType.eGraphType_DIRECTED)
    (ha : g.Inserted a) (hb : g.Inserted b)
    (hne : find g.vertices g.size a ≠ find g.vertices g.size b)
    (hno : find g.vertices g.size a ∉ (g.vertexAt (find g.vertices g.size b)).indices) :
    ∃ g1 g2 : Graph,
      Graph_AddEdge g a b = some (true, g1) ∧
      find g.vertices g.size b ∈ (g1.vertexAt (find g.vertices g.size a)).indices ∧
      find g.vertices g.size a ∉ (g1.vertexAt (find g.vertices g.size b)).indices ∧
      Graph_AddEdge g1 b a = some (true, g2) ∧
      find g.vertices g.size a ∈ (g2.vertexAt (find g.vertices g.size b)).indices := by
  obtain ⟨a1, a2, a3, a4⟩ := find_inserted_facts g a hs ha
  obtain ⟨b1, b2, b3, b4⟩ := find_inserted_facts g b hs hb
  have hl : 0 < g.len := by omega
  have h2 : ¬ (find g.vertices g.size a = -1 ∨ find g.vertices g.size b = -1) := by
    rintro (h | h)
    · exact a1 h
    · exact b1 h
  have hdec : decide (g.type = eGraphType.eGraphType_UNDIRECTED) = false := by simp [hd]
  have e1 := Graph_AddEdge_true g a b hl h2
  rw [hdec] at e1
  generalize hG : edgeResult g (find g.vertices g.size a) (find g.vertices g.size b)
    (double_to_float CFloat.zero) false = G at e1
  have fa : find G.vertices G.size a = find g.vertices g.size a := by
    rw [← hG]; exact find_edgeResult _ _ _ _ _ _
  have fb : find G.vertices G.size b = find g.vertices g.size b := by
    rw [← hG]; exact find_edgeResult _ _ _ _ _ _
  have hGl : G.vertices.length = g.vertices.length := by rw [← hG]; simp
  have hGlen : G.len = g.len := by rw [← hG]; simp
  have hGt : G.type = g.type := by rw [← hG]; simp
  have e2 := Graph_AddEdge_true G b a (by omega)
    (by rw [fa, fb]; rintro (h | h); exact b1 h; exact a1 h)
  rw [hGt, hdec, fa, fb] at e2
  refine ⟨G, _, e1, ?_, ?_, e2, ?_⟩
  · rw [← hG]; exact edgeResult_mem_start g _ _ _ _ a2 b2 a4
  · rw [← hG, edgeResult_vertexAt_finish_directed g _ _ _ a2 b2 hne]; exact hno
  · exact edgeResult_mem_start G _ _ _ _ b2 a2 (by omega)

/-- Witness of C2: the directed graph with the vertices 100 and 200 whose
traversal fields were set and in which the list of vertex 0 was traversed by a
query (the state `queried`); the edge 100 -> 200 is added. -/
theorem C2_directed_edge_one_way_witness :
    (queried eGraphType.eGraphType_DIRECTED).Shaped ∧
    (queried eGraphType.eGraphType_DIRECTED).type = eGraphType.eGraphType_DIRECTED ∧
    (queried eGraphType.eGraphType_DIRECTED).Inserted 100 ∧
    (queried eGraphType.eGraphType_DIRECTED).Inserted 200 ∧
    (0 : Int) ≠ 1 ∧
    (0 : Int) ∉ ((queried eGraphType.eGraphType_DIRECTED).vertexAt 1).indices ∧
    ∃ g1 g2 : Graph,
      Graph_AddEdge (queried eGraphType.eGraphType_DIRECTED) 100 200 = some (true, g1) ∧
      (1 : Int) ∈ (g1.vertexAt 0).indices ∧ (0 : Int) ∉ (g1.vertexAt 1).indices ∧
      Graph_AddEdge g1 200 100 = some (true, g2) ∧ (0 : Int) ∈ (g2.vertexAt 1).indices :=
  ⟨by decide, rfl, ⟨0, by decide, by decide⟩, ⟨1, by decide, by decide⟩,
    by decide, by decide,
    C2_directed_edge_one_way (queried eGraphType.eGraphType_DIRECTED) 100 200
      (by decide) rfl ⟨0, by decide, by decide⟩ ⟨1, by decide, by decide⟩
      (by decide) (by decide)⟩

/-- C3 fails on the code: in the directed graph with the vertices 100 and 200,
after `Graph_AddWeightedEdge(g, 100, 200, 0.1)` returns true,
`Graph_GetWeight(g, 100, 200)` returns `13421773 * 2 ^ (-27)`, the `float`
nearest to `0.1`, which is not equal to the weight `0.1` that was given. -/
theorem C3_weight_narrowed_to_float :
    ∃ g1 g2 : Graph,
      Graph_AddWeightedEdge (twoVertices eGraphType.eGraphType_DIRECTED) 100 200 oneTenth =
        some (true, g1) ∧
      Graph_GetWeight g1 100 200 = some (CFloat.finite 13421773 (-27), g2) ∧
      CFloat.ceq (CFloat.finite 13421773 (-27)) oneTenth = false :=
  ⟨_, _, rfl, rfl, rfl⟩

/-- C4: edge insertion is idempotent.  In every graph that satisfies the
representation invariant, for two inserted values `a` and `b` and weights `w`
and `w2`, `Graph_AddWeightedEdge(g, a, b, w)` followed by
`Graph_AddWeightedEdge(g, a, b, w2)` leaves the graph in exactly the state the
first call produced, so `Graph_GetWeight(g, a, b)` is the same before and after
the second call.  That state holds one record for the index of `b` in the list
of the vertex of `a` and, in an undirected graph, one record for the index of
`a` in the list of the vertex of `b`.  Each of the two records carries the
weight of the insertion that created it, never `w2`: the weight the first call
stored (`w` as converted for `insert`) when the first call created the record,
and the weight that was there when the record existed before. -/
theorem C4_weighted_edge_insertion_idempotent (g : Graph) (a b : Int) (w w2 : CFloat)
    (hv : g.Valid) (ha : g.Inserted a) (hb : g.Inserted b) :
    ∃ g1 g2 : Graph,
      Graph_AddWeightedEdge g a b w = some (true, g1) ∧
      Graph_AddWeightedEdge g1 a b w2 = some (true, g2) ∧
      g2 = g1 ∧
      Graph_GetWeight g2 a b = Graph_GetWeight g1 a b ∧
      (g2.vertexAt (find g.vertices g.size a)).indices.count (find g.vertices g.size b) = 1 ∧
      (g.type = eGraphType.eGraphType_UNDIRECTED →
        (g2.vertexAt (find g.vertices g.size b)).indices.count (find g.vertices g.size a) = 1) ∧
      (g2.vertexAt (find g.vertices g.size a)).weightOf (find g.vertices g.size b) =
        (if find g.vertices g.size b ∈ (g.vertexAt (find g.vertices g.size a)).indices then
          (g.vertexAt (find g.vertices g.size a)).weightOf (find g.vertices g.size b)
        else some (double_to_float w)) ∧
      (g.type = eGraphType.eGraphType_UNDIRECTED →
        (g2.vertexAt (find g.vertices g.size b)).weightOf (find g.vertices g.size a) =
          (if find g.vertices g.size a ∈ (g.vertexAt (find g.vertices g.size b)).indices then
            (g.vertexAt (find g.vertices g.size b)).weightOf (find g.vertices g.size a)
          else some (double_to_float w))) := by
  obtain ⟨a1, a2, a3, a4⟩ := find_inserted_facts g a hv.1 ha
  obtain ⟨b1, b2, b3, b4⟩ := find_inserted_facts g b hv.1 hb
  have hl : 0 < g.len := by omega
  have h2 : ¬ (find g.vertices g.size a = -1 ∨ find g.vertices g.size b = -1) := by
    rintro (h | h)
    · exact a1 h
    · exact b1 h
  have e1 := Graph_AddWeightedEdge_true g a b w hl h2
  have hidem := edgeResult_idem g _ _ (double_to_float w) (double_to_float w2)
    (decide (g.type = eGraphType.eGraphType_UNDIRECTED)) a2 b2 a4 b4
  have hcs := edgeResult_count_start g _ _ (double_to_float w)
    (decide (g.type = eGraphType.eGraphType_UNDIRECTED)) hv a2 b2 a4
  have hcf := edgeResult_count_finish g _ _ (double_to_float w) hv a2 b2 a4 b4
  have hat := edgeResult_vertexAt_start_eq g _ _ (double_to_float w)
    (decide (g.type = eGraphType.eGraphType_UNDIRECTED)) a2 b2 a4
  have haf := edgeResult_vertexAt_finish_eq g _ _ (double_to_float w) a2 b2 a4 b4
  have e2 := Graph_AddWeightedEdge_true
    (edgeResult g (find g.vertices g.size a) (find g.vertices g.size b) (double_to_float w)
      (decide (g.type = eGraphType.eGraphType_UNDIRECTED))) a b w2
    (by simpa using hl) (by rw [find_edgeResult, find_edgeResult]; exact h2)
  rw [find_edgeResult, find_edgeResult, edgeResult_type, hidem] at e2
  refine ⟨_, _, e1, e2, rfl, rfl, hcs, ?_, ?_, ?_⟩
  · intro hu
    simp only [hu, decide_True] at hcf ⊢
    exact hcf
  · rw [hat]
    exact weightOf_insert _ _ _
  · intro hu
    simp only [hu, decide_True]
    rw [haf]
    exact weightOf_insert _ _ _

/-- Witness of C4: the undirected graph with the vertices 100 and 200 whose
traversal fields were set and in which the list of vertex 0 was traversed by a
query (the state `queried`); the edge 100 - 200 is added with weight 0.5 and
again with weight 1.5, and both records carry 0.5. -/
theorem C4_weighted_edge_insertion_idempotent_witness :
    (queried eGraphType.eGraphType_UNDIRECTED).Valid ∧
    (queried eGraphType.eGraphType_UNDIRECTED).Inserted 100 ∧
    (queried eGraphType.eGraphType_UNDIRECTED).Inserted 200 ∧
    ∃ g1 g2 : Graph,
      Graph_AddWeightedEdge (queried eGraphType.eGraphType_UNDIRECTED) 100 200
        (CFloat.finite 1 (-1)) = some (true, g1) ∧
      Graph_AddWeightedEdge g1 100 200 (CFloat.finite 3 (-1)) = some (true, g2) ∧
      g2 = g1 ∧
      Graph_GetWeight g2 100 200 = Graph_GetWeight g1 100 200 ∧
      (g2.vertexAt 0).indices.count 1 = 1 ∧
      (eGraphType.eGraphType_UNDIRECTED = eGraphType.eGraphType_UNDIRECTED →
        (g2.vertexAt 1).indices.count 0 = 1) ∧
      (g2.vertexAt 0).weightOf 1 =
        (if (1 : Int) ∈ ((queried eGraphType.eGraphType_UNDIRECTED).vertexAt 0).indices then
          ((queried eGraphType.eGraphType_UNDIRECTED).vertexAt 0).weightOf 1
        else some (CFloat.finite 1 (-1))) ∧
      (eGraphType.eGraphType_UNDIRECTED = eGraphType.eGraphType_UNDIRECTED →
        (g2.vertexAt 1).weightOf 0 =
          (if (0 : Int) ∈ ((queried eGraphType.eGraphType_UNDIRECTED).vertexAt 1).indices then
            ((queried eGraphType.eGraphType_UNDIRECTED).vertexAt 1).weightOf 0
          else some (CFloat.finite 1 (-1)))) :=
  ⟨by decide, ⟨0, by decide, by decide⟩, ⟨1, by decide, by decide⟩,
    C4_weighted_edge_insertion_idempotent (queried eGraphType.eGraphType_UNDIRECTED) 100 200
      (CFloat.finite 1 (-1)) (CFloat.finite 3 (-1))
      (by decide) ⟨0, by decide, by decide⟩ ⟨1, by decide, by decide⟩⟩

/-- C5 fails on the code: in the undirected graph of capacity 2 whose only
inserted vertex is 100, the value 0 is the value of no inserted vertex, yet
`Graph_AddEdge(g, 0, 100)` and `Graph_AddEdge(g, 100, 0)` return true, because
`find` scans all `size` slots and the unused slot 1 holds the data 0 that
`calloc` left there; the call records the index 1 in the list of vertex 0 and
the index 0 in the list of the unused slot 1, both of which were empty. -/
theorem C5_absent_value_found_in_unused_slot :
    Reachable (oneOfTwo eGraphType.eGraphType_UNDIRECTED) ∧
    ¬ (oneOfTwo eGraphType.eGraphType_UNDIRECTED).Inserted 0 ∧
    ((oneOfTwo eGraphType.eGraphType_UNDIRECTED).vertexAt 0).indices = [] ∧
    ((oneOfTwo eGraphType.eGraphType_UNDIRECTED).vertexAt 1).indices = [] ∧
    ∃ g1 g2 : Graph,
      Graph_AddEdge (oneOfTwo eGraphType.eGraphType_UNDIRECTED) 0 100 = some (true, g1) ∧
      (g1.vertexAt 0).indices = [1] ∧ (g1.vertexAt 1).indices = [0] ∧
      Graph_AddEdge (oneOfTwo eGraphType.eGraphType_UNDIRECTED) 100 0 = some (true, g2) ∧
      (g2.vertexAt 0).indices = [1] ∧ (g2.vertexAt 1).indices = [0] := by
  refine ⟨oneOfTwo_reachable _, ?_, rfl, rfl, _, _, rfl, rfl, rfl, rfl, rfl, rfl⟩
  rintro ⟨i, h1, h2⟩
  have hi : i = 0 := by
    have : (i : Int) < 1 := h1
    omega
  subst hi
  exact absurd h2 (by decide)

/-- C6: on a graph with `len > 0`, `Graph_AddEdge` and `Graph_AddWeightedEdge`
return normally; they return false exactly when `find` over the `size` slots
yields `-1` for the start value or for the finish value, and then the graph is
the same after the call as before; in every other case they return true. -/
theorem C6_edge_calls_fail_exactly_when_not_found (g : Graph) (a b : Int) (w : CFloat)
    (hl : 0 < g.len) :
    (∃ (r : Bool) (g1 : Graph),
      Graph_AddEdge g a b = some (r, g1) ∧
      (r = false ↔ (find g.vertices g.size a = -1 ∨ find g.vertices g.size b = -1)) ∧
      (r = false → g1 = g) ∧
      (¬ (find g.vertices g.size a = -1 ∨ find g.vertices g.size b = -1) → r = true)) ∧
    (∃ (r : Bool) (g1 : Graph),
      Graph_AddWeightedEdge g a b w = some (r, g1) ∧
      (r = false ↔ (find g.vertices g.size a = -1 ∨ find g.vertices g.size b = -1)) ∧
      (r = false → g1 = g) ∧
      (¬ (find g.vertices g.size a = -1 ∨ find g.vertices g.size b = -1) → r = true)) := by
  by_cases h2 : find g.vertices g.size a = -1 ∨ find g.vertices g.size b = -1
  · exact ⟨⟨false, g, Graph_AddEdge_false g a b hl h2, by simp [h2], fun _ => rfl,
        fun h => absurd h2 h⟩,
      ⟨false, g, Graph_AddWeightedEdge_false g a b w hl h2, by simp [h2], fun _ => rfl,
        fun h => absurd h2 h⟩⟩
  · exact ⟨⟨true, _, Graph_AddEdge_true g a b hl h2, by simp [h2],
        fun h => Bool.noConfusion h, fun _ => rfl⟩,
      ⟨true, _, Graph_AddWeightedEdge_true g a b w hl h2, by simp [h2],
        fun h => Bool.noConfusion h, fun _ => rfl⟩⟩

/-- Witness of C6: the graph of capacity 2 with the one vertex 100; the value 7
is in no slot, so both calls return false and leave the graph as it was. -/
theorem C6_edge_calls_fail_exactly_when_not_found_witness :
    (0 : Int) < (oneOfTwo eGraphType.eGraphType_DIRECTED).len ∧
    Graph_AddEdge (oneOfTwo eGraphType.eGraphType_DIRECTED) 100 7 =
      some (false, oneOfTwo eGraphType.eGraphType_DIRECTED) ∧
    ((∃ (r : Bool) (g1 : Graph),
      Graph_AddEdge (oneOfTwo eGraphType.eGraphType_DIRECTED) 100 7 = some (r, g1) ∧
      (r = false ↔ ((0 : Int) = -1 ∨ (-1 : Int) = -1)) ∧
      (r = false → g1 = oneOfTwo eGraphType.eGraphType_DIRECTED) ∧
      (¬ ((0 : Int) = -1 ∨ (-1 : Int) = -1) → r = true)) ∧
    (∃ (r : Bool) (g1 : Graph),
      Graph_AddWeightedEdge (oneOfTwo eGraphType.eGraphType_DIRECTED) 100 7
        (CFloat.finite 1 (-1)) = some (r, g1) ∧
      (r = false ↔ ((0 : Int) = -1 ∨ (-1 : Int) = -1)) ∧
      (r = false → g1 = oneOfTwo eGraphType.eGraphType_DIRECTED) ∧
      (¬ ((0 : Int) = -1 ∨ (-1 : Int) = -1) → r = true))) :=
  ⟨by decide, rfl,
    C6_edge_calls_fail_exactly_when_not_found (oneOfTwo eGraphType.eGraphType_DIRECTED) 100 7
      (CFloat.finite 1 (-1)) (by decide)⟩

/-- C7: on every graph with at least one vertex (whatever its traversal fields and
list cursors are), `Graph_GetWeight(g, a, b)` returns
`0.0` when `a` or `b` does not resolve to an index; when both resolve and the
list of the vertex of `a` holds no record for the index of `b` (in particular
when that list was never created); and when that list holds a record for the
index of `b` whose weight is `0.0`, in a graph `h` none of whose lists holds an
index twice (`Graph_GetWeight` returns the weight of the first record for the
index).  Hence a graph `g` with no record from `a` to `b` and a graph `h` with
a zero-weight record from `a` to `b` give the same `Graph_GetWeight`. -/
theorem C7_weight_zero_is_ambiguous (g h : Graph) (a b : Int)
    (hgl : 0 < g.len) (hh : h.NoDuplicates) (hhl : 0 < h.len) :
    ((find g.vertices g.size a = -1 ∨ find g.vertices g.size b = -1) →
      ∃ g1, Graph_GetWeight g a b = some (CFloat.zero, g1)) ∧
    (find g.vertices g.size a ≠ -1 → find g.vertices g.size b ≠ -1 →
      find g.vertices g.size b ∉ (g.vertexAt (find g.vertices g.size a)).indices →
      ∃ g1, Graph_GetWeight g a b = some (CFloat.zero, g1)) ∧
    (find g.vertices g.size a ≠ -1 → find g.vertices g.size b ≠ -1 →
      (g.vertexAt (find g.vertices g.size a)).neighbors = none →
      ∃ g1, Graph_GetWeight g a b = some (CFloat.zero, g1)) ∧
    (find h.vertices h.size a ≠ -1 → find h.vertices h.size b ≠ -1 →
      ({ index := find h.vertices h.size b, weight := CFloat.zero } : Data) ∈
        (h.vertexAt (find h.vertices h.size a)).items →
      ∃ h1, Graph_GetWeight h a b = some (CFloat.zero, h1)) ∧
    (find g.vertices g.size a ≠ -1 → find g.vertices g.size b ≠ -1 →
      find g.vertices g.size b ∉ (g.vertexAt (find g.vertices g.size a)).indices →
      find h.vertices h.size a ≠ -1 → find h.vertices h.size b ≠ -1 →
      ({ index := find h.vertices h.size b, weight := CFloat.zero } : Data) ∈
        (h.vertexAt (find h.vertices h.size a)).items →
      (Graph_GetWeight g a b).map Prod.fst = (Graph_GetWeight h a b).map Prod.fst) := by
  have none_case : ∀ k : Graph, 0 < k.len →
      find k.vertices k.size a ≠ -1 → find k.vertices k.size b ≠ -1 →
      find k.vertices k.size b ∉ (k.vertexAt (find k.vertices k.size a)).indices →
      ∃ k1, Graph_GetWeight k a b = some (CFloat.zero, k1) := by
    intro k hkl h1 h2 h3
    obtain ⟨k1, e⟩ := Graph_GetWeight_spec k a b hkl
    refine ⟨k1, ?_⟩
    rw [e, if_neg (by rintro (x | x); exact h1 x; exact h2 x), weightOf_of_not_mem _ _ h3]
    simp
  have zero_case : ∀ k : Graph, k.NoDuplicates → 0 < k.len →
      find k.vertices k.size a ≠ -1 → find k.vertices k.size b ≠ -1 →
      ({ index := find k.vertices k.size b, weight := CFloat.zero } : Data) ∈
        (k.vertexAt (find k.vertices k.size a)).items →
      ∃ k1, Graph_GetWeight k a b = some (CFloat.zero, k1) := by
    intro k hkv hkl h1 h2 h3
    obtain ⟨k1, e⟩ := Graph_GetWeight_spec k a b hkl
    refine ⟨k1, ?_⟩
    have hw := weightOf_of_mem _ _ (vertexAt_nodup k hkv (find k.vertices k.size a)) h3
    simp only at hw
    rw [e, if_neg (by rintro (x | x); exact h1 x; exact h2 x), hw]
    simp
  refine ⟨?_, none_case g hgl, ?_, zero_case h hh hhl, ?_⟩
  · intro h1
    obtain ⟨g1, e⟩ := Graph_GetWeight_spec g a b hgl
    exact ⟨g1, by rw [e, if_pos h1]⟩
  · intro h1 h2 h3
    apply none_case g hgl h1 h2
    simp [Vertex.indices, Vertex.items, h3]
  · intro h1 h2 h3 h4 h5 h6
    obtain ⟨g1, e1⟩ := none_case g hgl h1 h2 h3
    obtain ⟨h1, e2⟩ := zero_case h hh hhl h4 h5 h6
    rw [e1, e2]; rfl

/-- Witness of C7: the state `queried` (traversal fields set, the list of vertex 0
holds a self-loop only and its cursor was moved by a query), which has no record
from 100 to 200, and the graph `zeroEdge`, which has one of weight `0.0`. -/
theorem C7_weight_zero_is_ambiguous_witness :
    (0 : Int) < (queried eGraphType.eGraphType_UNDIRECTED).len ∧
    zeroEdge.NoDuplicates ∧ (0 : Int) < zeroEdge.len ∧
    ((queried eGraphType.eGraphType_UNDIRECTED).vertexAt 0).indices = [0] ∧
    (1 : Int) ∉ ((queried eGraphType.eGraphType_UNDIRECTED).vertexAt 0).indices ∧
    ({ index := 1, weight := CFloat.zero } : Data) ∈ (zeroEdge.vertexAt 0).items ∧
    (Graph_GetWeight (queried eGraphType.eGraphType_UNDIRECTED) 100 200).map Prod.fst =
      (Graph_GetWeight zeroEdge 100 200).map Prod.fst :=
  ⟨by decide, by decide, by decide, rfl, by decide, by decide,
    (C7_weight_zero_is_ambiguous (queried eGraphType.eGraphType_UNDIRECTED) zeroEdge 100 200
      (by decide) (by decide) (by decide)).2.2.2.2
      (by decide) (by decide) (by decide) (by decide) (by decide) (by decide)⟩

/-- C8: for every capacity `c > 0` and every kind, after `Graph_New(c, kind)` the
`c` calls `Graph_AddVertex` with any values `vs` (duplicates included) all
succeed and `Graph_GetLen` is `c`; one more `Graph_AddVertex`, with any value,
fails its assertion `len < size`, so the length stays `c`. -/
theorem C8_vertex_beyond_capacity_fails (c : Int) (kind : eGraphType) (vs : List Int)
    (hc : 0 < c) (hn : (vs.length : Int) = c) :
    ∃ g0 g : Graph, Graph_New c kind = some g0 ∧ run g0 (vs.map Op.addVertex) = some g ∧
      Graph_GetLen g = c ∧ ∀ v : Int, Graph_AddVertex g v = none := by
  obtain ⟨g0, g, e0, e1, _, z, _, v⟩ := run_from_new c kind (vs.map Op.addVertex) hc
    (by rw [addedValues_map_addVertex]; omega) (startsWithVertex_map_addVertex vs)
  rw [addedValues_map_addVertex] at v
  have hlen : g.len = c := by rw [v.1]; exact hn
  refine ⟨g0, g, e0, e1, hlen, ?_⟩
  intro x
  exact Graph_AddVertex_none g x (by rw [hlen, z]; omega)

/-- Witness of C8: capacity 2 filled with the value 100 twice. -/
theorem C8_vertex_beyond_capacity_fails_witness :
    (0 : Int) < 2 ∧ (([100, 100] : List Int).length : Int) = 2 ∧
    ∃ g0 g : Graph, Graph_New 2 eGraphType.eGraphType_DIRECTED = some g0 ∧
      run g0 (([100, 100] : List Int).map Op.addVertex) = some g ∧
      Graph_GetLen g = 2 ∧ ∀ v : Int, Graph_AddVertex g v = none :=
  ⟨by decide, by decide,
    C8_vertex_beyond_capacity_fails 2 eGraphType.eGraphType_DIRECTED [100, 100]
      (by decide) (by decide)⟩

/-- C9: vertex indices follow insertion order and are stable.  For every capacity
`c > 0`, every kind and every sequence of calls of `Graph_AddVertex`,
`Graph_AddEdge` and `Graph_AddWeightedEdge` on a new graph that adds `k <= c`
vertices with the values `v_0 .. v_(k-1)`: when no edge call comes before the
first vertex is added, every call returns normally (the edge calls true or
false), and afterwards `Graph_GetLen` returns `k` and `Graph_GetDataByIndex(g, i)`
returns `v_i` for every `i < k`; a sequence that starts with an edge call stops
at that call, on the assertion `len > 0`. -/
theorem C9_indices_follow_insertion_order (c : Int) (kind : eGraphType) (ops : List Op)
    (hc : 0 < c) (hk : ((addedValues ops).length : Int) ≤ c) :
    ∃ g0 : Graph, Graph_New c kind = some g0 ∧
      (startsWithVertex ops →
        ∃ g : Graph, run g0 ops = some g ∧
          Graph_GetLen g = ((addedValues ops).length : Int) ∧
          ∀ (i : Nat) (hi : i < (addedValues ops).length),
            Graph_GetDataByIndex g (i : Int) = some ((addedValues ops)[i])) ∧
      (¬ startsWithVertex ops → run g0 ops = none) := by
  refine ⟨_, Graph_New_some c kind hc, ?_, ?_⟩
  · intro hstart
    obtain ⟨g0, g, e0, e1, _, _, _, v⟩ := run_from_new c kind ops hc hk hstart
    rw [Graph_New_some c kind hc, Option.some.injEq] at e0
    subst e0
    refine ⟨g, e1, v.1, ?_⟩
    intro i hi
    have h1 := v.2 i hi
    rw [List.getElem?_eq_getElem hi] at h1
    unfold Graph_GetDataByIndex
    rw [if_pos ⟨by omega, by rw [v.1]; omega⟩]
    exact h1.symm
  · intro hstart
    cases ops with
    | nil => exact absurd trivial hstart
    | cons op ops =>
      cases op with
      | addVertex d => exact absurd trivial hstart
      | addEdge a b =>
        simp only [run, Op.apply]
        rw [Graph_AddEdge_none _ a b (by simp)]; rfl
      | addWeightedEdge a b w =>
        simp only [run, Op.apply]
        rw [Graph_AddWeightedEdge_none _ a b w (by simp)]; rfl

/-- Witness of C9: capacity 3; the vertex 100 is added, an edge to the absent
value 7 is refused, the vertex 200 is added, and the edge 100 - 200 is added. -/
theorem C9_indices_follow_insertion_order_witness :
    (0 : Int) < 3 ∧
    ((addedValues [Op.addVertex 100, Op.addEdge 100 7, Op.addVertex 200,
      Op.addWeightedEdge 100 200 (CFloat.finite 1 (-1))]).length : Int) ≤ 3 ∧
    ∃ g0 : Graph, Graph_New 3 eGraphType.eGraphType_UNDIRECTED = some g0 ∧
      (startsWithVertex [Op.addVertex 100, Op.addEdge 100 7, Op.addVertex 200,
          Op.addWeightedEdge 100 200 (CFloat.finite 1 (-1))] →
        ∃ g : Graph,
          run g0 [Op.addVertex 100, Op.addEdge 100 7, Op.addVertex 200,
            Op.addWeightedEdge 100 200 (CFloat.finite 1 (-1))] = some g ∧
          Graph_GetLen g = ((addedValues [Op.addVertex 100, Op.addEdge 100 7, Op.addVertex 200,
            Op.addWeightedEdge 100 200 (CFloat.finite 1 (-1))]).length : Int) ∧
          ∀ (i : Nat) (hi : i < (addedValues [Op.addVertex 100, Op.addEdge 100 7,
              Op.addVertex 200, Op.addWeightedEdge 100 200 (CFloat.finite 1 (-1))]).length),
            Graph_GetDataByIndex g (i : Int) =
              some ((addedValues [Op.addVertex 100, Op.addEdge 100 7, Op.addVertex 200,
                Op.addWeightedEdge 100 200 (CFloat.finite 1 (-1))])[i])) ∧
      (¬ startsWithVertex [Op.addVertex 100, Op.addEdge 100 7, Op.addVertex 200,
          Op.addWeightedEdge 100 200 (CFloat.finite 1 (-1))] →
        run g0 [Op.addVertex 100, Op.addEdge 100 7, Op.addVertex 200,
          Op.addWeightedEdge 100 200 (CFloat.finite 1 (-1))] = none) :=
  ⟨by decide, by decide,
    C9_indices_follow_insertion_order 3 eGraphType.eGraphType_UNDIRECTED
      [Op.addVertex 100, Op.addEdge 100 7, Op.addVertex 200,
        Op.addWeightedEdge 100 200 (CFloat.finite 1 (-1))]
      (by decide) (by decide)⟩

/-- C10: for every capacity `c > 0` and every kind, `Graph_New(c, kind)` returns a
graph whose `Graph_GetLen` is 0 and whose `Graph_GetSize` is `c`. -/
theorem C10_new_graph_len_and_size (c : Int) (kind : eGraphType) (hc : 0 < c) :
    ∃ g : Graph, Graph_New c kind = some g ∧ Graph_GetLen g = 0 ∧ Graph_GetSize g = c :=
  ⟨_, Graph_New_some c kind hc, rfl, rfl⟩

/-- Witness of C10: capacity 5, undirected, as in the demonstration driver. -/
theorem C10_new_graph_len_and_size_witness :
    (0 : Int) < 5 ∧
    ∃ g : Graph, Graph_New 5 eGraphType.eGraphType_UNDIRECTED = some g ∧
      Graph_GetLen g = 0 ∧ Graph_GetSize g = 5 :=
  ⟨by decide, C10_new_graph_len_and_size 5 eGraphType.eGraphType_UNDIRECTED (by decide)⟩

/-- C11: the demonstration driver.  On `Graph_New(5, UNDIRECTED)` with the
vertices 100, 200, 300, 400, 500 added in that order and the weighted edges
(100,200,0.5), (100,400,1.5), (200,300,2.5), (200,500,3.5), (300,500,4.5),
(400,500,5.5) added in that order, `main` reaches its console loop, every call
of `Graph_AddWeightedEdge` has returned true, `Graph_GetWeight(g, 400, 500)` is
5.5, `Graph_GetDataByIndex(g, 0)` is 100, and the neighbor list of the vertex at
index 0 holds exactly two records, for the indices 1 (value 200, weight 0.5) and
3 (value 400, weight 1.5). -/
theorem C11_demonstration_driver :
    ∃ r : MainRun, main = some r ∧
      r.added = [true, true, true, true, true, true] ∧
      r.peso = CFloat.finite 11 (-1) ∧
      Graph_GetDataByIndex r.grafo 0 = some 100 ∧
      (r.grafo.vertexAt 0).items =
        [{ index := 1, weight := CFloat.finite 1 (-1) },
         { index := 3, weight := CFloat.finite 3 (-1) }] ∧
      Graph_GetDataByIndex r.grafo 1 = some 200 ∧
      Graph_GetDataByIndex r.grafo 3 = some 400 :=
  ⟨_, rfl, rfl, rfl, rfl, rfl, rfl, rfl⟩

/-- C12 fails on the code: undirected symmetry is lost through an unused slot.  On
`Graph_New(2, UNDIRECTED)`, after `Graph_AddVertex(g, 100)`, the call
`Graph_AddEdge(g, 100, 0)` returns true (the value 0 is found in the unused
slot 1) and `Graph_AddVertex(g, 200)` then resets the list of slot 1.  In the
state reached both indices 0 and 1 are below `len`, the list of vertex 0 holds a
record for the index 1 and the list of vertex 1 holds no record at all. -/
theorem C12_symmetry_lost_through_unused_slot :
    ∃ g0 : Graph, Graph_New 2 eGraphType.eGraphType_UNDIRECTED = some g0 ∧
      (∃ g1 : Graph, Graph_AddEdge (oneOfTwo eGraphType.eGraphType_UNDIRECTED) 100 0 =
        some (true, g1)) ∧
      run g0 [Op.addVertex 100, Op.addEdge 100 0, Op.addVertex 200] = some lostRecord ∧
      Reachable lostRecord ∧
      lostRecord.len = 2 ∧
      ({ index := 1, weight := CFloat.zero } : Data) ∈ (lostRecord.vertexAt 0).items ∧
      (lostRecord.vertexAt 1).items = [] :=
  ⟨_, rfl, ⟨_, rfl⟩, rfl, lostRecord_reachable, rfl, by decide, rfl⟩

/-- C13: in every state reachable from `Graph_New` by calls of `Graph_AddVertex`,
`Graph_AddEdge` and `Graph_AddWeightedEdge`, no slot of the vertex array has a
neighbor list that holds two records with the same neighbor index. -/
theorem C13_no_duplicate_neighbor_index (g : Graph) (hr : Reachable g) (k : Int) :
    (g.vertexAt k).indices.Nodup ∧
    ∀ idx : Int, (g.vertexAt k).indices.count idx ≤ 1 := by
  have h := vertexAt_nodup g (Reachable.valid g hr).2 k
  exact ⟨h, fun idx => List.nodup_iff_count_le_one.mp h idx⟩

/-- Witness of C13: the undirected graph with the vertices 100 and 200 joined by
an edge; vertex 0 holds one record. -/
theorem C13_no_duplicate_neighbor_index_witness :
    Reachable zeroEdge ∧ (zeroEdge.vertexAt 0).indices = [1] ∧
    ((zeroEdge.vertexAt 0).indices.Nodup ∧
      ∀ idx : Int, (zeroEdge.vertexAt 0).indices.count idx ≤ 1) :=
  ⟨zeroEdge_reachable, rfl, C13_no_duplicate_neighbor_index zeroEdge zeroEdge_reachable 0⟩

/-- C14: `Graph_GetDataByIndex(g, i)` and `Graph_GetVertexByIndex(g, i)` return
exactly when `0 <= i < len`, and then they return the data, respectively the
vertex, of slot `i`; for every other index, negative ones and those of unused
slots in `[len, size)` included, they fail their assertion. -/
theorem C14_index_accessors (g : Graph) (i : Int) :
    ((Graph_GetDataByIndex g i).isSome ↔ (0 ≤ i ∧ i < g.len)) ∧
    ((Graph_GetVertexByIndex g i).isSome ↔ (0 ≤ i ∧ i < g.len)) ∧
    (0 ≤ i ∧ i < g.len →
      Graph_GetDataByIndex g i = some (g.vertexAt i).data ∧
      Graph_GetVertexByIndex g i = some (g.vertexAt i)) ∧
    (i < 0 → Graph_GetDataByIndex g i = none ∧ Graph_GetVertexByIndex g i = none) ∧
    (g.len ≤ i → Graph_GetDataByIndex g i = none ∧ Graph_GetVertexByIndex g i = none) := by
  unfold Graph_GetDataByIndex Graph_GetVertexByIndex
  by_cases h : 0 ≤ i ∧ i < g.len
  · simp only [if_pos h, Option.isSome_some, true_iff, and_true, true_and]
    exact ⟨h, h, fun _ => trivial, fun hn => by omega, fun hn => by omega⟩
  · simp only [if_neg h, Option.isSome_none, Bool.false_eq_true, false_iff, and_self,
      not_false_eq_true, implies_true, and_true, true_and]
    exact ⟨h, h, fun hn => absurd hn h⟩

/-- Witness of C14: the graph of capacity 2 with the one vertex 100: index 0 is
served, the unused slot 1 and the index -1 are refused. -/
theorem C14_index_accessors_witness :
    ((0 : Int) ≤ 0 ∧ (0 : Int) < (oneOfTwo eGraphType.eGraphType_DIRECTED).len) ∧
    (oneOfTwo eGraphType.eGraphType_DIRECTED).len ≤ 1 ∧ (-1 : Int) < 0 ∧
    (Graph_GetDataByIndex (oneOfTwo eGraphType.eGraphType_DIRECTED) 0 = some 100 ∧
      Graph_GetVertexByIndex (oneOfTwo eGraphType.eGraphType_DIRECTED) 0 =
        some ((oneOfTwo eGraphType.eGraphType_DIRECTED).vertexAt 0)) ∧
    (Graph_GetDataByIndex (oneOfTwo eGraphType.eGraphType_DIRECTED) 1 = none ∧
      Graph_GetVertexByIndex (oneOfTwo eGraphType.eGraphType_DIRECTED) 1 = none) ∧
    (Graph_GetDataByIndex (oneOfTwo eGraphType.eGraphType_DIRECTED) (-1) = none ∧
      Graph_GetVertexByIndex (oneOfTwo eGraphType.eGraphType_DIRECTED) (-1) = none) :=
  ⟨by decide, by decide, by decide,
    (C14_index_accessors (oneOfTwo eGraphType.eGraphType_DIRECTED) 0).2.2.1 (by decide),
    (C14_index_accessors (oneOfTwo eGraphType.eGraphType_DIRECTED) 1).2.2.2.2 (by decide),
    (C14_index_accessors (oneOfTwo eGraphType.eGraphType_DIRECTED) (-1)).2.2.2.1 (by decide)⟩

/-- C15: the mutators leave the traversal fields alone.  `Graph_AddVertex` (on a
graph with a free slot), `Graph_AddEdge` and `Graph_AddWeightedEdge` (on a graph
with `len > 0`) return and leave the color, distance and predecessor of every
slot as they were; the two edge operations also leave the data of every slot
and `len`, `size` and `type` as they were. -/
theorem C15_traversal_fields_untouched (g : Graph) (d a b : Int) (w : CFloat) :
    (g.len < g.size → ∃ g1 : Graph, Graph_AddVertex g d = some g1 ∧
      ∀ k : Int, (g1.vertexAt k).color = (g.vertexAt k).color ∧
        (g1.vertexAt k).distance = (g.vertexAt k).distance ∧
        (g1.vertexAt k).predecessor = (g.vertexAt k).predecessor) ∧
    (0 < g.len → ∃ (r : Bool) (g1 : Graph), Graph_AddEdge g a b = some (r, g1) ∧
      g1.len = g.len ∧ g1.size = g.size ∧ g1.type = g.type ∧
      ∀ k : Int, (g1.vertexAt k).data = (g.vertexAt k).data ∧
        (g1.vertexAt k).color = (g.vertexAt k).color ∧
        (g1.vertexAt k).distance = (g.vertexAt k).distance ∧
        (g1.vertexAt k).predecessor = (g.vertexAt k).predecessor) ∧
    (0 < g.len → ∃ (r : Bool) (g1 : Graph), Graph_AddWeightedEdge g a b w = some (r, g1) ∧
      g1.len = g.len ∧ g1.size = g.size ∧ g1.type = g.type ∧
      ∀ k : Int, (g1.vertexAt k).data = (g.vertexAt k).data ∧
        (g1.vertexAt k).color = (g.vertexAt k).color ∧
        (g1.vertexAt k).distance = (g.vertexAt k).distance ∧
        (g1.vertexAt k).predecessor = (g.vertexAt k).predecessor) := by
  refine ⟨?_, ?_, ?_⟩
  · intro hl
    exact ⟨vertexResult g d, Graph_AddVertex_some g d hl, vertexResult_frame g d⟩
  · intro hl
    by_cases h2 : find g.vertices g.size a = -1 ∨ find g.vertices g.size b = -1
    · exact ⟨false, g, Graph_AddEdge_false g a b hl h2, rfl, rfl, rfl,
        fun _ => ⟨rfl, rfl, rfl, rfl⟩⟩
    · exact ⟨true, _, Graph_AddEdge_true g a b hl h2, edgeResult_frame g _ _ _ _⟩
  · intro hl
    by_cases h2 : find g.vertices g.size a = -1 ∨ find g.vertices g.size b = -1
    · exact ⟨false, g, Graph_AddWeightedEdge_false g a b w hl h2, rfl, rfl, rfl,
        fun _ => ⟨rfl, rfl, rfl, rfl⟩⟩
    · exact ⟨true, _, Graph_AddWeightedEdge_true g a b w hl h2, edgeResult_frame g _ _ _ _⟩

/-- Witness of C15: the graph of capacity 2 with the one vertex 100 has a free
slot and `len > 0`; a second vertex 200 is added. -/
theorem C15_traversal_fields_untouched_witness :
    (oneOfTwo eGraphType.eGraphType_UNDIRECTED).len <
      (oneOfTwo eGraphType.eGraphType_UNDIRECTED).size ∧
    ∃ g1 : Graph, Graph_AddVertex (oneOfTwo eGraphType.eGraphType_UNDIRECTED) 200 = some g1 ∧
      ∀ k : Int,
        (g1.vertexAt k).color = ((oneOfTwo eGraphType.eGraphType_UNDIRECTED).vertexAt k).color ∧
        (g1.vertexAt k).distance =
          ((oneOfTwo eGraphType.eGraphType_UNDIRECTED).vertexAt k).distance ∧
        (g1.vertexAt k).predecessor =
          ((oneOfTwo eGraphType.eGraphType_UNDIRECTED).vertexAt k).predecessor :=
  ⟨by decide,
    (C15_traversal_fields_untouched (oneOfTwo eGraphType.eGraphType_UNDIRECTED) 200 100 200
      (CFloat.finite 1 (-1))).1 (by decide)⟩

/-- C16: in every state reached from `Graph_New(c, kind)` by calls of
`Graph_AddVertex`, `Graph_AddEdge` and `Graph_AddWeightedEdge` that all
returned, `0 <= len <= size` holds, `size` is `c` (which is positive) and `type`
is `kind`. -/
theorem C16_len_size_type (c : Int) (kind : eGraphType) (ops : List Op) (g0 g : Graph)
    (h0 : Graph_New c kind = some g0) (hrun : run g0 ops = some g) :
    0 ≤ Graph_GetLen g ∧ Graph_GetLen g ≤ Graph_GetSize g ∧ Graph_GetSize g = c ∧
      g.type = kind ∧ 0 < c := by
  have hv0 := Graph_New_valid c kind g0 h0
  obtain ⟨hv, hs, ht⟩ := run_valid ops g0 g hv0 hrun
  have hc : 0 < c := by
    by_contra hc
    unfold Graph_New at h0
    rw [if_neg hc] at h0
    exact Option.noConfusion h0
  rw [Graph_New_some c kind hc, Option.some.injEq] at h0
  have hs0 : g0.size = c := by rw [← h0]
  have ht0 : g0.type = kind := by rw [← h0]
  obtain ⟨_, h2, h3, _⟩ := hv.1
  exact ⟨h2, h3, by rw [← hs0]; exact hs, by rw [← ht0]; exact ht, hc⟩

/-- Witness of C16: capacity 2, two vertices and an edge between them. -/
theorem C16_len_size_type_witness :
    Graph_New 2 eGraphType.eGraphType_UNDIRECTED =
      some { vertices := [Vertex_zero, Vertex_zero], size := 2, len := 0,
             type := eGraphType.eGraphType_UNDIRECTED } ∧
    run { vertices := [Vertex_zero, Vertex_zero], size := 2, len := 0,
          type := eGraphType.eGraphType_UNDIRECTED }
        [Op.addVertex 100, Op.addVertex 200, Op.addEdge 100 200] = some zeroEdge ∧
    (0 ≤ Graph_GetLen zeroEdge ∧ Graph_GetLen zeroEdge ≤ Graph_GetSize zeroEdge ∧
      Graph_GetSize zeroEdge = 2 ∧ zeroEdge.type = eGraphType.eGraphType_UNDIRECTED ∧
      (0 : Int) < 2) :=
  ⟨rfl, rfl,
    C16_len_size_type 2 eGraphType.eGraphType_UNDIRECTED
      [Op.addVertex 100, Op.addVertex 200, Op.addEdge 100 200] _ zeroEdge rfl rfl⟩

/-- C17: `find(vertices, size, key)` returns `-1` exactly when none of the `size`
slots holds the key; otherwise it returns the smallest index in `[0, size)` whose
slot holds the key, the first match when several slots hold it.  The bound of
the scan is the `size` handed in, whatever the number of live vertices. -/
theorem C17_find_first_match (vertices : List Vertex) (size key : Int) :
    (find vertices size key = -1 ↔
      ∀ j : Nat, (j : Int) < size → (vertices.getD j Vertex_zero).data ≠ key) ∧
    (∀ k : Nat, (k : Int) < size → (vertices.getD k Vertex_zero).data = key →
      (∀ j : Nat, j < k → (vertices.getD j Vertex_zero).data ≠ key) →
      find vertices size key = (k : Int)) ∧
    (find vertices size key ≠ -1 →
      ∃ k : Nat, find vertices size key = (k : Int) ∧ (k : Int) < size ∧
        (vertices.getD k Vertex_zero).data = key ∧
        ∀ j : Nat, j < k → (vertices.getD j Vertex_zero).data ≠ key) := by
  refine ⟨find_eq_neg_one vertices size key, ?_, ?_⟩
  · intro k hk hd hmin
    rcases find_cases vertices size key with h | ⟨k1, h1, h2, h3, h4⟩
    · rw [find_eq_neg_one] at h
      exact absurd hd (h k hk)
    · rw [h1]
      have : k1 = k := by
        rcases Nat.lt_trichotomy k1 k with hlt | heq | hgt
        · exact absurd h3 (hmin k1 hlt)
        · exact heq
        · exact absurd hd (h4 k hgt)
      rw [this]
  · intro hne
    rcases find_cases vertices size key with h | h
    · exact absurd h hne
    · exact h

/-- Witness of C17: in the graph of capacity 2 with the one vertex 100 (`len` is
1) the key 0 is found at index 1, an unused slot; with the vertices 100 and 100
the key 100 is found at index 0. -/
theorem C17_find_first_match_witness :
    (oneOfTwo eGraphType.eGraphType_DIRECTED).len = 1 ∧
    find (oneOfTwo eGraphType.eGraphType_DIRECTED).vertices
      (oneOfTwo eGraphType.eGraphType_DIRECTED).size 0 = ((1 : Nat) : Int) ∧
    find [{ Vertex_zero with data := 100 }, { Vertex_zero with data := 100 }] 2 100 =
      ((0 : Nat) : Int) :=
  ⟨rfl,
    (C17_find_first_match (oneOfTwo eGraphType.eGraphType_DIRECTED).vertices
      (oneOfTwo eGraphType.eGraphType_DIRECTED).size 0).2.1 1 (by decide) (by decide)
      (by decide),
    (C17_find_first_match [{ Vertex_zero with data := 100 }, { Vertex_zero with data := 100 }]
      2 100).2.1 0 (by decide) (by decide) (by decide)⟩

/-- C18: the unweighted edge operation is the weighted one with weight `0.0`.  On
every graph with `len > 0`, directed or undirected, and for all values `a` and
`b`, `Graph_AddEdge(g, a, b)` and `Graph_AddWeightedEdge(g, a, b, 0.0)` return
the same boolean and leave the same graph. -/
theorem C18_unweighted_is_weight_zero (g : Graph) (a b : Int) (hl : 0 < g.len) :
    ∃ (r : Bool) (g1 : Graph), Graph_AddEdge g a b = some (r, g1) ∧
      Graph_AddWeightedEdge g a b CFloat.zero = some (r, g1) := by
  by_cases h2 : find g.vertices g.size a = -1 ∨ find g.vertices g.size b = -1
  · exact ⟨false, g, Graph_AddEdge_false g a b hl h2,
      Graph_AddWeightedEdge_false g a b CFloat.zero hl h2⟩
  · exact ⟨true, _, Graph_AddEdge_true g a b hl h2,
      Graph_AddWeightedEdge_true g a b CFloat.zero hl h2⟩

/-- Witness of C18: the edge 100 - 200 in the undirected graph with the vertices
100 and 200. -/
theorem C18_unweighted_is_weight_zero_witness :
    (0 : Int) < (twoVertices eGraphType.eGraphType_UNDIRECTED).len ∧
    Graph_AddEdge (twoVertices eGraphType.eGraphType_UNDIRECTED) 100 200 =
      some (true, zeroEdge) ∧
    ∃ (r : Bool) (g1 : Graph),
      Graph_AddEdge (twoVertices eGraphType.eGraphType_UNDIRECTED) 100 200 = some (r, g1) ∧
      Graph_AddWeightedEdge (twoVertices eGraphType.eGraphType_UNDIRECTED) 100 200 CFloat.zero =
        some (r, g1) :=
  ⟨by decide, rfl,
    C18_unweighted_is_weight_zero (twoVertices eGraphType.eGraphType_UNDIRECTED) 100 200
      (by decide)⟩

/-- C19: in every state reachable from `Graph_New` by calls of `Graph_AddVertex`,
`Graph_AddEdge` and `Graph_AddWeightedEdge`, every neighbor index recorded in
the list of any slot lies in `[0, size)` and is the position of a slot of the
vertex array; so every lookup `g->vertices[neighbor_idx]` of `Graph_Print` is
within the array, and `Graph_Print` returns, having written one line for each
live vertex. -/
theorem C19_neighbor_indices_within_array (g : Graph) (hr : Reachable g) :
    (∀ k idx : Int, idx ∈ (g.vertexAt k).indices →
      0 ≤ idx ∧ idx < g.size ∧ idx.toNat < g.vertices.length) ∧
    ∀ depth : Int, ∃ (out : List PrintedVertex) (g1 : Graph),
      Graph_Print g depth = some (out, g1) ∧ (out.length : Int) = g.len := by
  have hv := Reachable.valid g hr
  have hin := Reachable.indicesInRange g hr
  obtain ⟨h1, h2, h3, h4⟩ := hv.1
  have hall : ∀ k idx : Int, idx ∈ (g.vertexAt k).indices →
      0 ≤ idx ∧ idx < g.size ∧ idx.toNat < g.vertices.length := by
    intro k idx hidx
    obtain ⟨h5, h6⟩ := vertexAt_indices_inRange g hin k idx hidx
    exact ⟨h5, h6, by omega⟩
  refine ⟨hall, ?_⟩
  intro depth
  obtain ⟨out, g1, e, hlen⟩ := print_loop_spec g.len.toNat 0 g
    (fun k _ idx hidx => ⟨(hall k idx hidx).1, (hall k idx hidx).2.2⟩)
  exact ⟨out, g1, e, by rw [hlen]; omega⟩

/-- Witness of C19: the undirected graph with the vertices 100 and 200 joined by
an edge of weight `0.0`, and what `Graph_Print` writes for it. -/
theorem C19_neighbor_indices_within_array_witness :
    Reachable zeroEdge ∧
    (Graph_Print zeroEdge 0).map Prod.fst =
      some [{ index := 0, data := 100, neighbors := [{ weight := CFloat.zero, data := 200 }] },
            { index := 1, data := 200, neighbors := [{ weight := CFloat.zero, data := 100 }] }] ∧
    ((∀ k idx : Int, idx ∈ (zeroEdge.vertexAt k).indices →
      0 ≤ idx ∧ idx < zeroEdge.size ∧ idx.toNat < zeroEdge.vertices.length) ∧
    ∀ depth : Int, ∃ (out : List PrintedVertex) (g1 : Graph),
      Graph_Print zeroEdge depth = some (out, g1) ∧ (out.length : Int) = zeroEdge.len) :=
  ⟨zeroEdge_reachable, rfl, C19_neighbor_indices_within_array zeroEdge zeroEdge_reachable⟩

/-- C20: neighbor lists are append-only.  `Graph_AddVertex` (on a graph with a
free slot) leaves the list of every vertex at an index below `len` as a prefix of
(equal to) what it was; `Graph_AddEdge` and `Graph_AddWeightedEdge` (on a graph
with `len > 0`) leave in every slot a list of which the list before the call is
a prefix, and which is longer by at most one record. -/
theorem C20_neighbor_lists_append_only (g : Graph) (d a b : Int) (w : CFloat) :
    (g.len < g.size → ∃ g1 : Graph, Graph_AddVertex g d = some g1 ∧
      ∀ k : Int, 0 ≤ k → k < g.len →
        (g.vertexAt k).items <+: (g1.vertexAt k).items ∧
        (g1.vertexAt k).items.length = (g.vertexAt k).items.length) ∧
    (0 < g.len → ∃ (r : Bool) (g1 : Graph), Graph_AddEdge g a b = some (r, g1) ∧
      ∀ k : Int, (g.vertexAt k).items <+: (g1.vertexAt k).items ∧
        (g1.vertexAt k).items.length ≤ (g.vertexAt k).items.length + 1) ∧
    (0 < g.len → ∃ (r : Bool) (g1 : Graph), Graph_AddWeightedEdge g a b w = some (r, g1) ∧
      ∀ k : Int, (g.vertexAt k).items <+: (g1.vertexAt k).items ∧
        (g1.vertexAt k).items.length ≤ (g.vertexAt k).items.length + 1) := by
  have same : ∀ k : Int, (g.vertexAt k).items <+: (g.vertexAt k).items ∧
      (g.vertexAt k).items.length ≤ (g.vertexAt k).items.length + 1 :=
    fun k => ⟨⟨[], List.append_nil _⟩, Nat.le_succ _⟩
  have found : ∀ x : Int, find g.vertices g.size x ≠ -1 → 0 ≤ find g.vertices g.size x :=
    fun x hx => (find_inRange _ _ _ hx).1
  refine ⟨?_, ?_, ?_⟩
  · intro hl
    refine ⟨vertexResult g d, Graph_AddVertex_some g d hl, ?_⟩
    intro k hk0 hk
    rw [vertexResult_vertexAt, vertexAt_setVertex_ne g g.len k _ (by omega)]
    exact ⟨⟨[], List.append_nil _⟩, rfl⟩
  · intro hl
    by_cases h2 : find g.vertices g.size a = -1 ∨ find g.vertices g.size b = -1
    · exact ⟨false, g, Graph_AddEdge_false g a b hl h2, same⟩
    · exact ⟨true, _, Graph_AddEdge_true g a b hl h2,
        edgeResult_items_extend g _ _ _ _ (found a (fun x => h2 (Or.inl x)))
          (found b (fun x => h2 (Or.inr x)))⟩
  · intro hl
    by_cases h2 : find g.vertices g.size a = -1 ∨ find g.vertices g.size b = -1
    · exact ⟨false, g, Graph_AddWeightedEdge_false g a b w hl h2, same⟩
    · exact ⟨true, _, Graph_AddWeightedEdge_true g a b w hl h2,
        edgeResult_items_extend g _ _ _ _ (found a (fun x => h2 (Or.inl x)))
          (found b (fun x => h2 (Or.inr x)))⟩

/-- Witness of C20: in the undirected graph with the vertices 100 and 200 joined
by an edge, the self-loop 100 - 100 of weight 0.5 adds one record to the list of
vertex 0. -/
theorem C20_neighbor_lists_append_only_witness :
    (0 : Int) < zeroEdge.len ∧
    (Graph_AddWeightedEdge zeroEdge 100 100 (CFloat.finite 1 (-1))).map
      (fun p => (p.2.vertexAt 0).items) =
      some [{ index := 1, weight := CFloat.zero }, { index := 0, weight := CFloat.finite 1 (-1) }] ∧
    ∃ (r : Bool) (g1 : Graph),
      Graph_AddWeightedEdge zeroEdge 100 100 (CFloat.finite 1 (-1)) = some (r, g1) ∧
      ∀ k : Int, (zeroEdge.vertexAt k).items <+: (g1.vertexAt k).items ∧
        (g1.vertexAt k).items.length ≤ (zeroEdge.vertexAt k).items.length + 1 :=
  ⟨by decide, rfl,
    (C20_neighbor_lists_append_only zeroEdge 0 100 100 (CFloat.finite 1 (-1))).2.2 (by decide)⟩

end Grafos
